import Mathlib

/-! Verification development for the worktree/workspace orchestration core of
the scripts repository: the package-manager registry and directory classifier,
workspace-root detection, the recursive install planner
(scripts/git/git-worktree.sh), branch-name sanitization
(packages/ticket-workspace/lib/git.ts), and the shadow-workspace engine
(ShadowManager). Filesystem state is embedded shallowly: directories are
finite lists of (filename, content) pairs, paths are lists of components,
and the stateful ShadowManager operations are explicit state transformers. -/

namespace Scripts

/-- A filesystem path in canonical absolute form, as its list of components. -/
abbrev FPath := List String

/-- The visible contents of one directory: (filename, file content) pairs. -/
abbrev DirFiles := List (String × String)

/-! ## Branch-name sanitization

Embeds sanitizeBranchName from packages/ticket-workspace/lib/git.ts:
  branchName.replace(/[^a-zA-Z0-9._-]/g, '-')
(the shell script computes the same directory name with a sed substitution
replacing every character outside [a-zA-Z0-9._-] by a dash). -/

/-- Membership in the character class [a-zA-Z0-9._-]. -/
def allowedDirChar (c : Char) : Bool :=
  (('a' ≤ c && c ≤ 'z') || ('A' ≤ c && c ≤ 'Z') || ('0' ≤ c && c ≤ '9')
    || c == '.' || c == '_' || c == '-')

/-- Replace every character outside [a-zA-Z0-9._-] with a dash; a global
single-character regex replacement is a per-character map. -/
def sanitizeBranchName (s : String) : String :=
  String.mk (s.data.map (fun c => if allowedDirChar c then c else '-'))

/-! ## Shadow-workspace folder-name parsing

Embeds ShadowManager.parseRepoAndWorktree: split folder.name at the first
occurrence of the two-character separator ": "; without a separator fall back
to repo name "unknown" with the whole name as worktree name. -/

/-- Index of the first occurrence of the two-character separator ": "
in a character list (JavaScript String.indexOf(': ')). -/
def firstSepIdx : List Char → Option Nat
  | [] => none
  | c :: rest =>
      if c == ':' && rest.head? == some ' ' then some 0
      else (firstSepIdx rest).map (· + 1)

/-- Whether the separator ": " occurs as a contiguous substring. -/
def hasSep : List Char → Bool
  | [] => false
  | c :: rest => (c == ':' && rest.head? == some ' ') || hasSep rest

/-- JavaScript String.prototype.trim: strip leading and trailing whitespace. -/
def jsTrim (s : String) : String :=
  String.mk (((s.data.dropWhile Char.isWhitespace).reverse.dropWhile
    Char.isWhitespace).reverse)

/-- ShadowManager.parseRepoAndWorktree: folder.name format is
"repoName: worktreeName"; names without the separator map to repo
"unknown" with the entire name as worktree name. -/
def parseRepoAndWorktree (folderName : String) : String × String :=
  match firstSepIdx folderName.data with
  | none => ("unknown", folderName)
  | some i =>
      (jsTrim (String.mk (folderName.data.take i)),
       jsTrim (String.mk (folderName.data.drop (i + 2))))

/-! ## Package Manager Registry (scripts/git/git-worktree.sh)

Each MANAGERS entry is a pipe-separated record
name|detect_files|install_cmd|workspace_spec|ecosystem; registry_parse and
the comma-split of detect_files are mechanical, so rules are embedded with
those fields already split. -/

/-- One registry entry of the MANAGERS table. -/
structure ManagerRule where
  name : String
  detect : List String
  install : String
  workspace : String
  ecosystem : String
  deriving DecidableEq, Repr

/-- The MANAGERS registry, in declared order (order is significant:
first matching entry wins, lock files before manifests). -/
def MANAGERS : List ManagerRule := [
  ⟨"pnpm", ["pnpm-lock.yaml"], "pnpm install", "pnpm-workspace.yaml", "js"⟩,
  ⟨"bun", ["bun.lockb", "bun.lock"], "bun install", "package.json:workspaces", "js"⟩,
  ⟨"yarn", ["yarn.lock"], "yarn install", "package.json:workspaces", "js"⟩,
  ⟨"npm", ["package-lock.json"], "npm install", "package.json:workspaces", "js"⟩,
  ⟨"cargo", ["Cargo.toml"], "cargo fetch", "Cargo.toml:\\[workspace\\]", "cargo"⟩,
  ⟨"go", ["go.mod"], "go mod download", "go.work", "go"⟩,
  ⟨"uv", ["uv.lock"], "uv sync", "", "python"⟩,
  ⟨"poetry", ["poetry.lock"], "poetry install", "", "python"⟩,
  ⟨"pipenv", ["Pipfile"], "pipenv install", "", "python"⟩,
  ⟨"pip", ["requirements.txt"], "pip install -r requirements.txt", "", "python"⟩,
  ⟨"pip-pyproject", ["pyproject.toml"], "pip install -e .", "", "python"⟩,
  ⟨"bundler", ["Gemfile"], "bundle install", "", "ruby"⟩,
  ⟨"composer", ["composer.json"], "composer install", "", "php"⟩,
  ⟨"dotnet", ["*.csproj", "*.sln"], "dotnet restore", "*.sln", "dotnet"⟩,
  ⟨"mix", ["mix.exs"], "mix deps.get", "", "elixir"⟩,
  ⟨"swift", ["Package.swift"], "swift package resolve", "", "swift"⟩,
  ⟨"dart", ["pubspec.yaml"], "dart pub get", "", "dart"⟩,
  ⟨"deno", ["deno.json", "deno.jsonc"], "deno install", "", "deno"⟩,
  ⟨"npm-fallback", ["package.json"], "npm install", "package.json:workspaces", "js"⟩]

/-- Shell glob matching for one path component: a star matches any character
sequence, every other pattern character is literal (the registry globs use no
other metacharacter). -/
def globCore : List Char → List Char → Bool
  | [], n => n.isEmpty
  | '*' :: ps, n =>
      (List.range (n.length + 1)).any (fun k => globCore ps (n.drop k))
  | _ :: _, [] => false
  | p :: ps, c :: cs => (p == c) && globCore ps cs

/-- Shell filename globbing as used by compgen -G: a leading dot of the
filename is only matched by a literal leading dot of the pattern. -/
def bashGlobMatch (pattern fname : String) : Bool :=
  if fname.data.head? == some '.' && pattern.data.head? != some '.' then false
  else globCore pattern.data fname.data

/-- file_exists_in_dir: glob patterns (containing a star) are checked with
compgen -G against the directory, anything else is a literal existence test. -/
def file_exists_in_dir (files : DirFiles) (pattern : String) : Bool :=
  if pattern.data.contains '*' then files.any (fun f => bashGlobMatch pattern f.1)
  else files.any (fun f => f.1 == pattern)

/-! ## Directory Classifier -/

/-- Inner loop of get_manager_for_dir: try a rule's detection patterns in
declared order. -/
def detectAnyFile (files : DirFiles) : List String → Bool
  | [] => false
  | p :: ps => file_exists_in_dir files p || detectAnyFile files ps

/-- Outer loop of get_manager_for_dir: try registry rules in declared order,
first rule with a matching detection pattern wins. -/
def get_manager_go (files : DirFiles) : List ManagerRule → Option String
  | [] => none
  | r :: rs =>
      if detectAnyFile files r.detect then some r.name
      else get_manager_go files rs

/-- get_manager_for_dir from scripts/git/git-worktree.sh. -/
def get_manager_for_dir (files : DirFiles) : Option String :=
  get_manager_go files MANAGERS

/-- get_ecosystem_for_manager: ecosystem tag of the first (unique) registry
rule carrying the manager name. -/
def get_ecosystem_for_manager (managerName : String) : Option String :=
  (MANAGERS.find? (fun r => r.name == managerName)).map (·.ecosystem)

/-! ## Workspace-Root Detector -/

/-- Strip one level of backslash escaping from a basic regular expression.
The registry's grep patterns ("workspaces" and an escaped "[workspace]")
contain no unescaped BRE metacharacter, so grep -q on them is a literal
substring test of the unescaped pattern. -/
def breUnescape : List Char → List Char
  | [] => []
  | '\\' :: c :: rest => c :: breUnescape rest
  | c :: rest => c :: breUnescape rest

/-- Contiguous-substring test on character lists. -/
def listIsSubstr (p : List Char) : List Char → Bool
  | [] => p.isEmpty
  | c :: rest => p.isPrefixOf (c :: rest) || listIsSubstr p rest

/-- grep -q pattern file, for the registry's metacharacter-free patterns. -/
def grep_q (pattern content : String) : Bool :=
  listIsSubstr (breUnescape pattern.data) content.data

/-- Longest prefix of a workspace spec before its first colon
(bash parameter expansion with the pattern colon-star). -/
def beforeFirstColon (s : String) : String :=
  String.mk (s.data.takeWhile (fun c => c ≠ ':'))

/-- Suffix of a workspace spec after its first colon. -/
def afterFirstColon (s : String) : String :=
  String.mk ((s.data.dropWhile (fun c => c ≠ ':')).drop 1)

/-- One workspace-spec evaluation of detect_workspace_roots against a
directory: "file" is an existence check, "file:pattern" additionally greps
the first matching file (compgen output is the directory's list order here,
matching the shell's sorted glob expansion for sorted directory listings). -/
def ws_spec_matches (files : DirFiles) (spec : String) : Bool :=
  if spec.data.contains ':' then
    let wsFile := beforeFirstColon spec
    let wsPat := afterFirstColon spec
    if file_exists_in_dir files wsFile then
      match (if wsFile.data.contains '*' then files.find? (fun f => bashGlobMatch wsFile f.1)
             else files.find? (fun f => f.1 == wsFile)) with
      | some f => grep_q wsPat f.2
      | none => false
    else false
  else file_exists_in_dir files spec

/-- Loop of detect_workspace_roots. The bash tracks seen ecosystems in a
pipe-delimited string; since ecosystem tags contain no pipe this is list
membership. Alongside the recorded roots, the embedding returns the trace of
rules whose workspace spec was actually evaluated (rules reaching the matched
check, i.e. with non-empty spec and ecosystem not yet recorded). -/
def detect_ws_go (dirPath : FPath) (files : DirFiles) :
    List ManagerRule → List String → List (String × FPath) → List ManagerRule →
    List (String × FPath) × List ManagerRule
  | [], _, roots, eval => (roots, eval)
  | r :: rs, seen, roots, eval =>
      if r.workspace == "" then detect_ws_go dirPath files rs seen roots eval
      else if seen.contains r.ecosystem then
        detect_ws_go dirPath files rs seen roots eval
      else if ws_spec_matches files r.workspace then
        detect_ws_go dirPath files rs (seen ++ [r.ecosystem])
          (roots ++ [(r.ecosystem, dirPath)]) (eval ++ [r])
      else detect_ws_go dirPath files rs seen roots (eval ++ [r])

/-- detect_workspace_roots from scripts/git/git-worktree.sh, with the
evaluation trace in the second component. -/
def detect_workspace_roots (dirPath : FPath) (files : DirFiles) :
    List (String × FPath) × List ManagerRule :=
  detect_ws_go dirPath files MANAGERS [] [] []

/-- Rules of a list up to and including the first one satisfying p. -/
def takeToFirstMatch (p : α → Bool) : List α → List α
  | [] => []
  | x :: xs => if p x then [x] else x :: takeToFirstMatch p xs

/-! ## Install Planner -/

/-- is_covered_by_workspace: the directory lies strictly inside a recorded
workspace root of the same ecosystem (the bash glob ws_path slash star on
path strings is strict component-prefix on canonical paths). -/
def is_covered_by_workspace (dir : FPath) (ecosystem : String)
    (wsRoots : List (String × FPath)) : Bool :=
  wsRoots.any (fun re =>
    !(dir == re.2) && ecosystem == re.1 && re.2.isPrefixOf dir)

/-- One directory of the pruned find traversal: its canonical path and its
directly contained files. -/
structure DirNode where
  path : FPath
  files : DirFiles
  deriving DecidableEq

/-- Files of the tree node at a path (the planner's filesystem reads). -/
def filesOf (tree : List DirNode) (p : FPath) : DirFiles :=
  ((tree.find? (fun d => d.path == p)).map (·.files)).getD []

/-- Loop body of install_dependencies for one visited directory, acting on
the accumulated (workspace roots, install jobs) state: classify; skip
unclassified directories; skip non-base directories covered by a recorded
same-ecosystem root; otherwise lazily record the accepted non-base
directory's own nested workspace roots and append the install job. -/
def planStep (baseDir : FPath)
    (st : List (String × FPath) × List (FPath × String)) (d : DirNode) :
    List (String × FPath) × List (FPath × String) :=
  match get_manager_for_dir d.files with
  | none => st
  | some manager =>
      let ecosystem := (get_ecosystem_for_manager manager).getD ""
      if d.path ≠ baseDir && is_covered_by_workspace d.path ecosystem st.1 then st
      else
        let roots2 := if d.path ≠ baseDir
          then st.1 ++ (detect_workspace_roots d.path d.files).1 else st.1
        (roots2, st.2 ++ [(d.path, manager)])

/-- Planning phase of install_dependencies: detect workspace roots at the
base, then visit the traversal's directories in order, producing the
InstallJob list (directory, manager name). -/
def install_dependencies_plan (tree : List DirNode) (baseDir : FPath) :
    List (FPath × String) :=
  (tree.foldl (planStep baseDir)
    ((detect_workspace_roots baseDir (filesOf tree baseDir)).1, [])).2

/-! ## Shadow Workspace Engine (ShadowManager, unnamed TypeScript module)

The shadow directory of one ticket is a list of root entries: plain files
(marker file, launcher script, zsh config, generated descriptor), repo
subdirectories holding worktree symlinks, and always-included symlinks.
Symlink targets are written by the code as paths relative to the symlink's
directory and are recorded here in resolved (absolute) form, which is what
every later read of the link observes. The pattern-copy pass
(syncMatchingFiles) only writes to paths that resolve through the repo
symlinks into the real worktrees — formalized below by syncNestedCopyOps
and resolveThroughLink — so it adds no entry under the shadow root and does
not appear in the shadow-state transformers. -/

/-- A requested workspace folder: display name "repoName: worktreeName" and
the worktree's real path. -/
structure Folder where
  name : String
  path : FPath
  deriving DecidableEq

/-- Always-include configuration; each item is recorded by its resolved
source path (the code resolves non-absolute entries against the root
directory; the symlink name is the item's basename either way). -/
structure AlwaysIncludeConfig where
  folders : List FPath
  files : List FPath
  deriving DecidableEq

/-- One repo subdirectory of the shadow root: worktree symlinks
(name, resolved target) plus its plain-file and subdirectory entries. -/
structure RepoDir where
  rname : String
  links : List (String × FPath)
  ofiles : List String
  odirs : List String
  deriving DecidableEq

/-- One entry at the shadow-workspace root. -/
inductive RootEnt
  | rfile (name : String)
  | rdir (d : RepoDir)
  | rlink (name : String) (target : FPath)
  deriving DecidableEq

/-- The on-disk state of one shadow workspace: its root entries. -/
abbrev ShadowWS := List RootEnt

/-- Name of a root entry. -/
def rentName : RootEnt → String
  | .rfile n => n
  | .rdir d => d.rname
  | .rlink n _ => n

/-- Directory lookup of a root entry by name. -/
def findEntry (ws : ShadowWS) (n : String) : Option RootEnt :=
  ws.find? (fun e => rentName e == n)

/-- Replace the (first) root entry of a given name. -/
def replaceEntry : ShadowWS → String → RootEnt → ShadowWS
  | [], _, _ => []
  | x :: xs, n, e =>
      if rentName x == n then e :: xs else x :: replaceEntry xs n e

/-- Observable reporting events of the ShadowManager operations. -/
inductive SMEvent
  | skippedExisting (name : String)
  | cannotInclude (item : FPath)
  | addedInclude (name : String)
  | linkError (repoName worktreeName : String)
  deriving DecidableEq

/-- One item of createAlwaysIncludedSymlinks: check the source exists (else
warn), skip with a report if an entry of the link name already exists at the
shadow root, otherwise create the symlink. srcExists is the fs.access oracle
for paths outside the shadow workspace. -/
def aiStep (srcExists : FPath → Bool) (st : ShadowWS × List SMEvent)
    (item : FPath) : ShadowWS × List SMEvent :=
  if srcExists item then
    if ((st.1.map rentName).contains (item.getLastD "")) then
      (st.1, st.2 ++ [.skippedExisting (item.getLastD "")])
    else
      (st.1 ++ [.rlink (item.getLastD "") item],
       st.2 ++ [.addedInclude (item.getLastD "")])
  else (st.1, st.2 ++ [.cannotInclude item])

/-- ShadowManager.createAlwaysIncludedSymlinks: process configured folders,
then files, with identical existence/skip logic. -/
def createAlwaysIncludedSymlinks (srcExists : FPath → Bool) (ws : ShadowWS)
    (ai : AlwaysIncludeConfig) : ShadowWS × List SMEvent :=
  (ai.folders ++ ai.files).foldl (aiStep srcExists) (ws, [])

/-- fs.writeFile of a fixed root file: creates the entry or overwrites it in
place (entry set unchanged). -/
def ensureRootFile (ws : ShadowWS) (n : String) : ShadowWS :=
  match findEntry ws n with
  | some _ => ws
  | none => ws ++ [.rfile n]

/-- mkdir of .vscode plus writeFile of its settings.json. -/
def ensureVscodeDir (ws : ShadowWS) : ShadowWS :=
  match findEntry ws ".vscode" with
  | some (.rdir d) =>
      if d.ofiles.contains "settings.json" then ws
      else replaceEntry ws ".vscode"
        (.rdir ⟨d.rname, d.links, d.ofiles ++ ["settings.json"], d.odirs⟩)
  | some _ => ws
  | none => ws ++ [.rdir ⟨".vscode", [], ["settings.json"], []⟩]

/-- Per-folder body of createShadowWorkspace: mkdir the repo directory,
unlink any previous entry at the link path (ignoring failure), create the
symlink; failures of the guarded block are caught and reported. -/
def createFolderStep (st : ShadowWS × List SMEvent) (f : Folder) :
    ShadowWS × List SMEvent :=
  let rw := parseRepoAndWorktree f.name
  match findEntry st.1 rw.1 with
  | none =>
      (st.1 ++ [.rdir ⟨rw.1, [(rw.2, f.path)], [], []⟩], st.2)
  | some (.rdir d) =>
      if d.odirs.contains rw.2 then
        (st.1, st.2 ++ [.linkError rw.1 rw.2])
      else
        (replaceEntry st.1 rw.1 (.rdir ⟨d.rname,
            (d.links.filter (fun l => l.1 ≠ rw.2)) ++ [(rw.2, f.path)],
            d.ofiles.filter (fun n => n ≠ rw.2), d.odirs⟩), st.2)
  | some _ =>
      (st.1, st.2 ++ [.linkError rw.1 rw.2])

/-- ShadowManager.createShadowWorkspace acting on the entry state of the
ticket's shadow directory (created empty by mkdir when absent): write the
marker, launcher and zsh files and the .vscode settings, link every
requested folder, then process always-included items. -/
def createShadowWorkspace (srcExists : FPath → Bool) (ws : ShadowWS)
    (folders : List Folder) (ai : Option AlwaysIncludeConfig) :
    ShadowWS × List SMEvent :=
  let ws1 := ensureVscodeDir (ensureRootFile (ensureRootFile
    (ensureRootFile ws ".shadow-workspace") "claude-here") ".zshrc")
  let st := folders.foldl createFolderStep (ws1, [])
  match ai with
  | some cfg =>
      let st2 := createAlwaysIncludedSymlinks srcExists st.1 cfg
      (st2.1, st.2 ++ st2.2)
  | none => st

/-- Contribution of one root entry to the existingRepos snapshot of
updateShadowWorkspace: a non-hidden repo directory is recorded with the
names of its symlink entries. -/
def snapshotEntry : RootEnt → Option (String × List String)
  | .rdir d =>
      if d.rname.data.head? == some '.' then none
      else some (d.rname, d.links.map (fun l => l.1))
  | _ => none

/-- existingRepos snapshot of updateShadowWorkspace: every non-hidden repo
directory at the shadow root with the names of its symlink entries. -/
def wsSnapshot (ws : ShadowWS) : List (String × List String) :=
  ws.filterMap snapshotEntry

/-- Insert one (repo, worktree) pair into the requested structure, keeping
insertion order and dropping duplicates (JavaScript Map of Sets). -/
def addToStructure : List (String × List String) → String → String →
    List (String × List String)
  | [], r, wt => [(r, [wt])]
  | (k, ws) :: rest, r, wt =>
      if k == r then (k, if ws.contains wt then ws else ws ++ [wt]) :: rest
      else (k, ws) :: addToStructure rest r wt

/-- newRepoStructure of updateShadowWorkspace: requested worktree names per
repo name, from the parsed folder names. -/
def newRepoStructure (folders : List Folder) : List (String × List String) :=
  folders.foldl (fun acc f =>
    let rw := parseRepoAndWorktree f.name
    addToStructure acc rw.1 rw.2) []

/-- Lookup in a repo-to-worktrees structure, defaulting to the empty set. -/
def structureLookup (s : List (String × List String)) (r : String) :
    List String :=
  ((s.find? (fun e => e.1 == r)).map (·.2)).getD []

/-- Effect of the removal pass of updateShadowWorkspace on one root entry:
in a non-hidden repo directory unlink the symlinks whose worktree is no
longer requested; when the repo has no requested worktrees attempt rmdir,
which succeeds only on an empty directory. -/
def removalEntry (newStr : List (String × List String)) (e : RootEnt) :
    Option RootEnt :=
  match e with
  | .rdir d =>
      if d.rname.data.head? == some '.' then some (.rdir d)
      else
        if (structureLookup newStr d.rname).isEmpty
            && (d.links.filter (fun l =>
              (structureLookup newStr d.rname).contains l.1)).isEmpty
            && d.ofiles.isEmpty && d.odirs.isEmpty
        then none
        else some (.rdir ⟨d.rname,
          d.links.filter (fun l =>
            (structureLookup newStr d.rname).contains l.1),
          d.ofiles, d.odirs⟩)
  | e => some e

/-- Removal pass of updateShadowWorkspace over the shadow root. -/
def removalPhase (newStr : List (String × List String)) (ws : ShadowWS) :
    ShadowWS :=
  ws.filterMap (removalEntry newStr)

/-- Addition pass of updateShadowWorkspace for one requested folder: skip if
the snapshot already records the worktree symlink, otherwise mkdir the repo
directory and create the symlink, reporting (and leaving the state intact)
when mkdir or symlink fails on an existing conflicting entry. -/
def updateFolderStep (snapshot : List (String × List String))
    (st : ShadowWS × List SMEvent) (f : Folder) : ShadowWS × List SMEvent :=
  if (structureLookup snapshot (parseRepoAndWorktree f.name).1).contains
      (parseRepoAndWorktree f.name).2 then st
  else
    match findEntry st.1 (parseRepoAndWorktree f.name).1 with
    | none =>
        (st.1 ++ [.rdir ⟨(parseRepoAndWorktree f.name).1,
          [((parseRepoAndWorktree f.name).2, f.path)], [], []⟩], st.2)
    | some (.rdir d) =>
        if (d.links.map (fun l => l.1)).contains (parseRepoAndWorktree f.name).2
            || d.ofiles.contains (parseRepoAndWorktree f.name).2
            || d.odirs.contains (parseRepoAndWorktree f.name).2 then
          (st.1, st.2 ++ [.linkError (parseRepoAndWorktree f.name).1
            (parseRepoAndWorktree f.name).2])
        else
          (replaceEntry st.1 (parseRepoAndWorktree f.name).1
            (.rdir ⟨d.rname,
              d.links ++ [((parseRepoAndWorktree f.name).2, f.path)],
              d.ofiles, d.odirs⟩),
           st.2)
    | some _ =>
        (st.1, st.2 ++ [.linkError (parseRepoAndWorktree f.name).1
          (parseRepoAndWorktree f.name).2])

/-- updateShadowWorkspace on an existing shadow workspace: snapshot the repo
directories, remove obsolete symlinks and empty repo directories, add the
missing requested symlinks (re-syncing files, which never touches shadow
entries), then re-process always-included items. -/
def updateExistingShadowWorkspace (srcExists : FPath → Bool) (ws : ShadowWS)
    (folders : List Folder) (ai : Option AlwaysIncludeConfig) :
    ShadowWS × List SMEvent :=
  match ai with
  | some cfg =>
      ((createAlwaysIncludedSymlinks srcExists
          (folders.foldl (updateFolderStep (wsSnapshot ws))
            (removalPhase (newRepoStructure folders) ws, [])).1 cfg).1,
       (folders.foldl (updateFolderStep (wsSnapshot ws))
          (removalPhase (newRepoStructure folders) ws, [])).2 ++
        (createAlwaysIncludedSymlinks srcExists
          (folders.foldl (updateFolderStep (wsSnapshot ws))
            (removalPhase (newRepoStructure folders) ws, [])).1 cfg).2)
  | none =>
      folders.foldl (updateFolderStep (wsSnapshot ws))
        (removalPhase (newRepoStructure folders) ws, [])

/-- The shadow location's state: the shadow workspaces present per ticket
id (shadowWorkspaceExists is a successful lookup). -/
abbrev ShadowFS := List (String × ShadowWS)

/-- Presence and state of a ticket's shadow workspace. -/
def lookupTicket (fs : ShadowFS) (t : String) : Option ShadowWS :=
  (fs.find? (fun e => e.1 == t)).map (·.2)

/-- Store a ticket's shadow-workspace state. -/
def setTicket : ShadowFS → String → ShadowWS → ShadowFS
  | [], t, ws => [(t, ws)]
  | (k, w) :: rest, t, ws =>
      if k == t then (t, ws) :: rest else (k, w) :: setTicket rest t ws

/-- createShadowWorkspace at the shadow location: mkdir recursive keeps an
already existing directory, then the create pass runs on its entries. -/
def createShadowWorkspaceFS (srcExists : FPath → Bool) (fs : ShadowFS)
    (t : String) (folders : List Folder) (ai : Option AlwaysIncludeConfig) :
    ShadowFS × List SMEvent :=
  let res := createShadowWorkspace srcExists ((lookupTicket fs t).getD [])
    folders ai
  (setTicket fs t res.1, res.2)

/-- ShadowManager.updateShadowWorkspace: fall back to create when the
ticket's shadow workspace does not exist. -/
def updateShadowWorkspace (srcExists : FPath → Bool) (fs : ShadowFS)
    (t : String) (folders : List Folder) (ai : Option AlwaysIncludeConfig) :
    ShadowFS × List SMEvent :=
  match lookupTicket fs t with
  | none => createShadowWorkspaceFS srcExists fs t folders ai
  | some ws =>
      (setTicket fs t (updateExistingShadowWorkspace srcExists ws folders ai).1,
       (updateExistingShadowWorkspace srcExists ws folders ai).2)

/-- ShadowManager.removeShadowWorkspace: fs.rm recursive with force, which
reports success whether or not the directory existed. -/
def removeShadowWorkspace (fs : ShadowFS) (t : String) : ShadowFS × Bool :=
  (fs.filter (fun e => e.1 ≠ t), true)

/-! ## The pattern-copy (file sync) pass -/

/-- findMatchingFilesRecursively: relative paths (under the directory being
scanned) of the files whose basename matches some pattern, where the
recursion never descends into hidden directories or node_modules. rtest is
the JavaScript RegExp test oracle (pattern, basename). -/
def findMatchingFilesRecursively (tree : List FPath) (pats : List String)
    (rtest : String → String → Bool) : List FPath :=
  tree.filter (fun rel =>
    !rel.isEmpty
    && (rel.dropLast.all (fun c => !(c.data.head? == some '.') && c ≠ "node_modules"))
    && pats.any (fun p => rtest p (rel.getLastD "")))

/-- Copy operations performed by syncNestedFiles: every matching relative
path is copied from sourceDir (the symlink's realpath, passed as sourceDir)
to the same relative path under targetLinkDir (the symlink path itself,
passed as targetLinkDir). -/
def syncNestedCopyOps (sourceDir targetLinkDir : FPath) (tree : List FPath)
    (pats : List String) (rtest : String → String → Bool) :
    List (FPath × FPath) :=
  (findMatchingFilesRecursively tree pats rtest).map
    (fun rel => (sourceDir ++ rel, targetLinkDir ++ rel))

/-- Resolution of a path through one directory symlink: components below the
symlink are re-rooted at the symlink's target. -/
def resolveThroughLink (linkPath target p : FPath) : FPath :=
  if linkPath.isPrefixOf p then target ++ p.drop linkPath.length else p

/-- syncMatchingFiles followed by syncNestedFilesInSymlinks for one repo
directory: for every symlink entry of the directory, the copy operations of
syncNestedFiles with the symlink's realpath (its resolved target) as source
and the symlink path itself as target directory; treeOf lists the relative
file paths inside a worktree. -/
def syncMatchingFilesOps (repoDirPath : FPath) (links : List (String × FPath))
    (treeOf : FPath → List FPath) (pats : List String)
    (rtest : String → String → Bool) : List (FPath × FPath) :=
  links.foldl (fun acc l =>
    acc ++ syncNestedCopyOps l.2 (repoDirPath ++ [l.1]) (treeOf l.2) pats rtest) []

/-! ## Invariants characterizing an up-to-date shadow workspace

These predicates describe the on-disk entry state reached by an update with
a given folder set and always-include configuration; update is the identity
on states satisfying them. -/

/-- Every symlink of a non-hidden repo directory is still requested. -/
def LinksReq (newStr : List (String × List String)) (ws : ShadowWS) : Prop :=
  ∀ d : RepoDir, RootEnt.rdir d ∈ ws →
    (d.rname.data.head? == some '.') = false →
    ∀ l ∈ d.links, (structureLookup newStr d.rname).contains l.1 = true

/-- A non-hidden repo directory with no requested worktrees is non-empty
(so the rmdir attempt of the removal pass keeps failing). -/
def DirsReq (newStr : List (String × List String)) (ws : ShadowWS) : Prop :=
  ∀ d : RepoDir, RootEnt.rdir d ∈ ws →
    (d.rname.data.head? == some '.') = false →
    structureLookup newStr d.rname = [] →
    ¬(d.ofiles = [] ∧ d.odirs = [])

/-- The addition pass can do nothing for this folder: the entry at its repo
name either is a repo directory already holding the worktree name (as a
symlink or a conflicting entry) or is a conflicting non-directory entry. -/
def AddNoop (ws : ShadowWS) (f : Folder) : Prop :=
  (∃ d : RepoDir,
    findEntry ws (parseRepoAndWorktree f.name).1 = some (.rdir d) ∧
    ((d.links.map (fun l => l.1)).contains (parseRepoAndWorktree f.name).2
        = true ∨
     d.ofiles.contains (parseRepoAndWorktree f.name).2 = true ∨
     d.odirs.contains (parseRepoAndWorktree f.name).2 = true)) ∨
  (∃ n, findEntry ws (parseRepoAndWorktree f.name).1 = some (.rfile n)) ∨
  (∃ n t, findEntry ws (parseRepoAndWorktree f.name).1 = some (.rlink n t))

/-- Every always-included item with an existing source already has an entry
of its base name at the shadow root. -/
def AiDone (se : FPath → Bool) (ai : Option AlwaysIncludeConfig)
    (ws : ShadowWS) : Prop :=
  ∀ item ∈ (match ai with
            | some cfg => cfg.folders ++ cfg.files
            | none => ([] : List FPath)),
    se item = true → ((ws.map rentName).contains (item.getLastD "")) = true

/-! ## Worktree Provisioner guard (main of git-worktree.sh) -/

/-- Git worktree state seen by the add-worktree guard: worktree directory
names and which of them hold uncommitted changes. -/
structure GitWtState where
  worktrees : List String
  dirty : String → Bool

/-- git worktree remove without force, per its documented semantics (spec
section 3, Worktree lifecycle): refuses to remove a worktree that has
uncommitted changes and leaves the directory in place. -/
def gitWorktreeRemove (st : GitWtState) (dir : String) : GitWtState × Bool :=
  if st.worktrees.contains dir && !st.dirty dir then
    ({ st with worktrees := st.worktrees.filter (fun w => w ≠ dir) }, true)
  else (st, false)

/-- Outcome of the existing-worktree guard. -/
inductive ProvisionOutcome
  | proceed (st : GitWtState)
  | fatalExit (code : Nat) (messages : List String) (st : GitWtState)

/-- The existing-worktree guard of main: when a worktree of the target
directory name already exists, attempt graceful removal; on failure print
the warning and the force-remove command and exit 1. -/
def existingWorktreeGuard (st : GitWtState) (dir : String) :
    ProvisionOutcome :=
  if st.worktrees.contains dir then
    match gitWorktreeRemove st dir with
    | (st2, true) => .proceed st2
    | (st2, false) =>
        .fatalExit 1 ["Worktree has uncommitted changes",
          "Run: git worktree remove -f " ++ dir] st2
  else .proceed st

/-! ## Helper lemmas -/

theorem detectAnyFile_eq_any (files : DirFiles) (ps : List String) :
    detectAnyFile files ps = ps.any (fun p => file_exists_in_dir files p) := by
  induction ps with
  | nil => rfl
  | cons p ps ih => simp [detectAnyFile, ih]

theorem get_manager_go_eq_find (files : DirFiles) (rs : List ManagerRule) :
    get_manager_go files rs =
      (rs.find? (fun r =>
        r.detect.any (fun p => file_exists_in_dir files p))).map (·.name) := by
  induction rs with
  | nil => rfl
  | cons r rs ih =>
      rw [get_manager_go, detectAnyFile_eq_any]
      cases h : r.detect.any (fun p => file_exists_in_dir files p) with
      | true => simp [List.find?, h]
      | false => simp [List.find?, h, ih]

/-- One unfolding step of firstSepIdx when the separator is not at the
head. -/
theorem firstSepIdx_cons_of_neg (c : Char) (rest : List Char)
    (h : (c == ':' && rest.head? == some ' ') = false) :
    firstSepIdx (c :: rest) = (firstSepIdx rest).map (· + 1) := by
  simp only [firstSepIdx, h]
  simp

theorem firstSepIdx_eq_none (l : List Char) :
    firstSepIdx l = none ↔ hasSep l = false := by
  induction l with
  | nil => simp [firstSepIdx, hasSep]
  | cons c rest ih =>
      by_cases h : (c == ':' && rest.head? == some ' ') = true
      · simp [firstSepIdx, hasSep, h]
      · simp only [Bool.not_eq_true] at h
        rw [firstSepIdx_cons_of_neg c rest h]
        simp [hasSep, h, Option.map_eq_none', ih]

theorem firstSepIdx_append (a b : List Char) (h : hasSep a = false) :
    firstSepIdx (a ++ ':' :: ' ' :: b) = some a.length := by
  induction a with
  | nil => simp [firstSepIdx]
  | cons c rest ih =>
      simp only [hasSep, Bool.or_eq_false_iff] at h
      have hrec := ih h.2
      cases rest with
      | nil =>
          rw [List.cons_append, List.nil_append,
            firstSepIdx_cons_of_neg c (':' :: ' ' :: b) (by simp)]
          have h0 : firstSepIdx (':' :: ' ' :: b) = some 0 := by
            simp [firstSepIdx]
          rw [h0]
          rfl
      | cons d r2 =>
          have h1 : (c == ':' && ((d :: r2 ++ ':' :: ' ' :: b).head?) == some ' ')
              = false := by simpa using h.1
          rw [List.cons_append, firstSepIdx_cons_of_neg c _ h1, hrec]
          simp

theorem find?_append_of_some {α : Type} {p : α → Bool} {l₁ : List α}
    (l₂ : List α) {a : α} (h : l₁.find? p = some a) :
    (l₁ ++ l₂).find? p = some a := by
  induction l₁ with
  | nil => simp [List.find?] at h
  | cons x xs ih =>
      cases hx : p x with
      | true =>
          rw [List.find?_cons_of_pos _ hx] at h
          rw [List.cons_append, List.find?_cons_of_pos _ hx]
          exact h
      | false =>
          rw [List.find?_cons_of_neg _ (by simp [hx])] at h
          rw [List.cons_append, List.find?_cons_of_neg _ (by simp [hx])]
          exact ih h

theorem findEntry_append_of_contains (ws tail : ShadowWS) (n : String)
    (h : (ws.map rentName).contains n = true) :
    findEntry (ws ++ tail) n = findEntry ws n := by
  have hmem : n ∈ ws.map rentName := by simpa using h
  obtain ⟨e, he, hn⟩ := List.mem_map.mp hmem
  have hsome : (ws.find? (fun x => rentName x == n)).isSome := by
    rw [List.find?_isSome]
    exact ⟨e, he, by simp [hn]⟩
  obtain ⟨e2, he2⟩ := Option.isSome_iff_exists.mp hsome
  unfold findEntry
  rw [he2, find?_append_of_some _ he2]

theorem aiStep_ws_shape (se : FPath → Bool) (st : ShadowWS × List SMEvent)
    (item : FPath) : ∃ tail, (aiStep se st item).1 = st.1 ++ tail := by
  by_cases hse : se item = true
  · by_cases hc : ((st.1.map rentName).contains (item.getLastD "")) = true
    · exact ⟨[], by unfold aiStep; rw [if_pos hse, if_pos hc]; simp⟩
    · exact ⟨[.rlink (item.getLastD "") item],
        by unfold aiStep; rw [if_pos hse, if_neg hc]⟩
  · exact ⟨[], by unfold aiStep; rw [if_neg hse]; simp⟩

theorem aiStep_events_shape (se : FPath → Bool) (st : ShadowWS × List SMEvent)
    (item : FPath) : ∃ tail, (aiStep se st item).2 = st.2 ++ tail := by
  by_cases hse : se item = true
  · by_cases hc : ((st.1.map rentName).contains (item.getLastD "")) = true
    · exact ⟨[.skippedExisting (item.getLastD "")],
        by unfold aiStep; rw [if_pos hse, if_pos hc]⟩
    · exact ⟨[.addedInclude (item.getLastD "")],
        by unfold aiStep; rw [if_pos hse, if_neg hc]⟩
  · exact ⟨[.cannotInclude item], by unfold aiStep; rw [if_neg hse]⟩

theorem aiFold_ws_shape (se : FPath → Bool) (items : List FPath)
    (st : ShadowWS × List SMEvent) :
    ∃ tail, (items.foldl (aiStep se) st).1 = st.1 ++ tail := by
  induction items generalizing st with
  | nil => exact ⟨[], by simp⟩
  | cons x xs ih =>
      obtain ⟨t1, h1⟩ := aiStep_ws_shape se st x
      obtain ⟨t2, h2⟩ := ih (aiStep se st x)
      exact ⟨t1 ++ t2, by rw [List.foldl_cons, h2, h1, List.append_assoc]⟩

theorem aiFold_events_shape (se : FPath → Bool) (items : List FPath)
    (st : ShadowWS × List SMEvent) :
    ∃ tail, (items.foldl (aiStep se) st).2 = st.2 ++ tail := by
  induction items generalizing st with
  | nil => exact ⟨[], by simp⟩
  | cons x xs ih =>
      obtain ⟨t1, h1⟩ := aiStep_events_shape se st x
      obtain ⟨t2, h2⟩ := ih (aiStep se st x)
      exact ⟨t1 ++ t2, by rw [List.foldl_cons, h2, h1, List.append_assoc]⟩

theorem contains_mono_append (ws tail : ShadowWS) (n : String)
    (h : (ws.map rentName).contains n = true) :
    (((ws ++ tail).map rentName).contains n) = true := by
  rw [List.contains_eq_any_beq] at h ⊢
  simp only [List.map_append, List.any_append, List.any_map] at *
  exact Bool.or_eq_true_iff.mpr (Or.inl h)

theorem aiFold_skip_event (se : FPath → Bool) (items : List FPath)
    (st : ShadowWS × List SMEvent) (item : FPath) (hmem : item ∈ items)
    (hc : (st.1.map rentName).contains (item.getLastD "") = true)
    (hse : se item = true) :
    SMEvent.skippedExisting (item.getLastD "") ∈
      (items.foldl (aiStep se) st).2 := by
  induction items generalizing st with
  | nil => cases hmem
  | cons x xs ih =>
      rw [List.foldl_cons]
      rcases List.mem_cons.mp hmem with heq | htail
      · subst heq
        obtain ⟨t2, h2⟩ := aiFold_events_shape se xs (aiStep se st item)
        rw [h2]
        have : SMEvent.skippedExisting (item.getLastD "") ∈
            (aiStep se st item).2 := by
          unfold aiStep
          rw [if_pos hse, if_pos hc]
          simp
        exact List.mem_append.mpr (Or.inl this)
      · obtain ⟨t1, h1⟩ := aiStep_ws_shape se st x
        refine ih (aiStep se st x) htail ?_
        rw [h1]
        exact contains_mono_append _ _ _ hc

theorem aiFold_warn_event (se : FPath → Bool) (items : List FPath)
    (st : ShadowWS × List SMEvent) (item : FPath) (hmem : item ∈ items)
    (hse : se item = false) :
    SMEvent.cannotInclude item ∈ (items.foldl (aiStep se) st).2 := by
  induction items generalizing st with
  | nil => cases hmem
  | cons x xs ih =>
      rw [List.foldl_cons]
      rcases List.mem_cons.mp hmem with heq | htail
      · subst heq
        obtain ⟨t2, h2⟩ := aiFold_events_shape se xs (aiStep se st item)
        rw [h2]
        have : SMEvent.cannotInclude item ∈ (aiStep se st item).2 := by
          unfold aiStep
          rw [if_neg (by simp [hse])]
          simp
        exact List.mem_append.mpr (Or.inl this)
      · exact ih (aiStep se st x) htail

/-! ## Claim theorems -/

/-- Claim C9: the worktree directory name for a branch replaces every
character outside the class [a-zA-Z0-9._-] with a dash, position by
position (the original branch name itself is what the provisioner passes to
git branch creation); in particular branch name "feature/ABC-123 fix!"
yields directory name "feature-ABC-123-fix-". -/
theorem C9_sanitize_branch_name :
    (∀ (s : String) (i : Nat),
        (sanitizeBranchName s).data[i]? =
          (s.data[i]?).map (fun c => if allowedDirChar c then c else '-')) ∧
    (∀ c : Char, allowedDirChar c = true ↔
        (('a' ≤ c ∧ c ≤ 'z') ∨ ('A' ≤ c ∧ c ≤ 'Z') ∨ ('0' ≤ c ∧ c ≤ '9')
          ∨ c = '.' ∨ c = '_' ∨ c = '-')) ∧
    sanitizeBranchName "feature/ABC-123 fix!" = "feature-ABC-123-fix-" := by
  refine ⟨?_, ?_, by rfl⟩
  · intro s i
    simp [sanitizeBranchName, List.getElem?_map]
  · intro c
    simp [allowedDirChar, Bool.or_eq_true, decide_eq_true_iff, or_assoc]

/-- Claim C2: classification returns the manager of the earliest-declared
registry rule having a matching detection pattern (a first-match search over
the rules in declared order, each rule matching when any of its declared
detection patterns matches), so no directory is matched to more than one
manager; in particular a directory holding both pnpm-lock.yaml and
package-lock.json classifies as pnpm, not npm. -/
theorem C2_classifier_first_rule_wins :
    (∀ files : DirFiles,
        get_manager_for_dir files =
          (MANAGERS.find? (fun r =>
            r.detect.any (fun p => file_exists_in_dir files p))).map (·.name)) ∧
    get_manager_for_dir [("pnpm-lock.yaml", ""), ("package-lock.json", "")] =
      some "pnpm" := by
  exact ⟨fun files => get_manager_go_eq_find files MANAGERS, by rfl⟩

/-- Claim C8: adding a worktree whose sanitized directory name already
exists as a worktree first attempts graceful removal; when that worktree has
uncommitted changes the removal fails, the operation exits with code 1,
prints the force-remove command as guidance, and the worktree state (hence
the directory) is left unchanged. -/
theorem C8_dirty_worktree_blocks_removal (st : GitWtState) (dir : String)
    (hmem : st.worktrees.contains dir = true) (hdirty : st.dirty dir = true) :
    existingWorktreeGuard st dir =
      .fatalExit 1 ["Worktree has uncommitted changes",
        "Run: git worktree remove -f " ++ dir] st := by
  have hmem2 : dir ∈ st.worktrees := by simpa using hmem
  unfold existingWorktreeGuard gitWorktreeRemove
  simp [hmem, hmem2, hdirty]

/-- Witness for C8 at a concrete dirty worktree. -/
theorem C8_dirty_worktree_blocks_removal_witness :
    existingWorktreeGuard ⟨["feature-x"], fun _ => true⟩ "feature-x" =
      .fatalExit 1 ["Worktree has uncommitted changes",
        "Run: git worktree remove -f feature-x"] ⟨["feature-x"], fun _ => true⟩ :=
  C8_dirty_worktree_blocks_removal ⟨["feature-x"], fun _ => true⟩ "feature-x"
    (by decide) rfl

/-- Claim C6: update on an absent shadow workspace behaves exactly as
create, and remove on an absent shadow workspace is a no-op reporting
success. -/
theorem C6_absent_update_create_remove_noop :
    (∀ (srcExists : FPath → Bool) (fs : ShadowFS) (t : String)
        (folders : List Folder) (ai : Option AlwaysIncludeConfig),
      lookupTicket fs t = none →
        updateShadowWorkspace srcExists fs t folders ai =
          createShadowWorkspaceFS srcExists fs t folders ai) ∧
    (∀ (fs : ShadowFS) (t : String), lookupTicket fs t = none →
        removeShadowWorkspace fs t = (fs, true)) := by
  constructor
  · intro se fs t folders ai h
    unfold updateShadowWorkspace
    rw [h]
  · intro fs t h
    unfold removeShadowWorkspace
    have hnone : fs.find? (fun e => e.1 == t) = none := by
      unfold lookupTicket at h
      exact Option.map_eq_none'.mp h
    have hall := List.find?_eq_none.mp hnone
    have : fs.filter (fun e => e.1 ≠ t) = fs := by
      refine List.filter_eq_self.mpr ?_
      intro e he
      have := hall e he
      simp only [beq_iff_eq] at this
      simpa using this
    rw [this]

/-- Witness for C6 on the empty shadow location. -/
theorem C6_absent_update_create_remove_noop_witness :
    (updateShadowWorkspace (fun _ => false) [] "TCK-1" [] none =
      createShadowWorkspaceFS (fun _ => false) [] "TCK-1" [] none) ∧
    removeShadowWorkspace [] "TCK-1" = ([], true) :=
  ⟨C6_absent_update_create_remove_noop.1 (fun _ => false) [] "TCK-1" [] none rfl,
   C6_absent_update_create_remove_noop.2 [] "TCK-1" rfl⟩

/-- parseRepoAndWorktree on an explicit character list. -/
theorem parseRepoAndWorktree_mk (l : List Char) :
    parseRepoAndWorktree (String.mk l) =
      match firstSepIdx l with
      | none => ("unknown", String.mk l)
      | some i =>
          (jsTrim (String.mk (l.take i)), jsTrim (String.mk (l.drop (i + 2)))) :=
  rfl

/-- Claim C10: the Shadow Workspace Engine parses a workspace-folder name by
splitting at the first occurrence of the separator ": " (trimming both
parts); a name without the separator parses to repo name "unknown" with the
entire name as worktree name, and such an entry is materialized under an
"unknown" repo directory by create rather than failing. -/
theorem C10_parse_folder_name :
    (∀ name : String, hasSep name.data = false →
        parseRepoAndWorktree name = ("unknown", name)) ∧
    (∀ a b : List Char, hasSep a = false →
        parseRepoAndWorktree (String.mk (a ++ ':' :: ' ' :: b)) =
          (jsTrim (String.mk a), jsTrim (String.mk b))) ∧
    (createShadowWorkspace (fun _ => false) []
        [⟨"plain-worktree", ["home", "wt"]⟩] none).1 =
      [.rfile ".shadow-workspace", .rfile "claude-here", .rfile ".zshrc",
       .rdir ⟨".vscode", [], ["settings.json"], []⟩,
       .rdir ⟨"unknown", [("plain-worktree", ["home", "wt"])], [], []⟩] := by
  refine ⟨?_, ?_, by rfl⟩
  · intro name h
    have h0 : firstSepIdx name.data = none := (firstSepIdx_eq_none name.data).mpr h
    unfold parseRepoAndWorktree
    rw [h0]
  · intro a b h
    rw [parseRepoAndWorktree_mk, firstSepIdx_append a b h]
    have ht : (a ++ ':' :: ' ' :: b).take a.length = a := List.take_left a _
    have hd : (a ++ ':' :: ' ' :: b).drop (a.length + 2) = b := by
      have he : a ++ ':' :: ' ' :: b = (a ++ [':', ' ']) ++ b := by simp
      rw [he, List.drop_left' (by simp)]
    show (jsTrim (String.mk ((a ++ ':' :: ' ' :: b).take a.length)),
        jsTrim (String.mk ((a ++ ':' :: ' ' :: b).drop (a.length + 2)))) =
      (jsTrim (String.mk a), jsTrim (String.mk b))
    rw [ht, hd]

/-- Witness for C10 at concrete folder names. -/
theorem C10_parse_folder_name_witness :
    parseRepoAndWorktree "abc" = ("unknown", "abc") ∧
    parseRepoAndWorktree (String.mk (['r', 'p'] ++ ':' :: ' ' :: ['w', 't'])) =
      (jsTrim (String.mk ['r', 'p']), jsTrim (String.mk ['w', 't'])) :=
  ⟨C10_parse_folder_name.1 "abc" (by decide),
   C10_parse_folder_name.2.1 ['r', 'p'] ['w', 't'] (by decide)⟩

/-- Claim C3 (code bug): the pattern-copy pass after linking takes the
resolved symlink target as its source directory but addresses every copy
destination under the symlink path itself, so each destination resolves
through the symlink back to its own source file: the shadow projection
gains no concrete file. At the failing input (repo link app/main to a
worktree containing .env) the single copy operation copies the worktree's
.env onto itself through the symlink. -/
theorem C3_sync_copies_resolve_to_source :
    (∀ (sourceDir linkPath : FPath) (tree : List FPath) (pats : List String)
        (rtest : String → String → Bool) (op : FPath × FPath),
      op ∈ syncNestedCopyOps sourceDir linkPath tree pats rtest →
        resolveThroughLink linkPath sourceDir op.2 = op.1) ∧
    syncMatchingFilesOps ["shadow", "T1", "app"] [("main", ["wt", "main"])]
        (fun _ => [[".env"]]) ["^.env.*"] (fun _ f => f == ".env") =
      [(["wt", "main", ".env"], ["shadow", "T1", "app", "main", ".env"])] ∧
    resolveThroughLink ["shadow", "T1", "app", "main"] ["wt", "main"]
      ["shadow", "T1", "app", "main", ".env"] = ["wt", "main", ".env"] := by
  refine ⟨?_, by rfl, by rfl⟩
  intro sourceDir linkPath tree pats rtest op hop
  obtain ⟨rel, _, hrel⟩ := List.mem_map.mp hop
  subst hrel
  show resolveThroughLink linkPath sourceDir (linkPath ++ rel) = sourceDir ++ rel
  unfold resolveThroughLink
  rw [if_pos (by rw [List.isPrefixOf_iff_prefix]; exact List.prefix_append _ _),
    List.drop_left]

/-- Witness for C3 at a concrete copy operation. -/
theorem C3_sync_copies_resolve_to_source_witness :
    resolveThroughLink ["s", "app", "m"] ["wt"] (["s", "app", "m"] ++ [".env"]) =
      ["wt"] ++ [".env"] :=
  C3_sync_copies_resolve_to_source.1 ["wt"] ["s", "app", "m"] [[".env"]]
    ["p"] (fun _ _ => true) (["wt"] ++ [".env"], ["s", "app", "m"] ++ [".env"])
    (by decide)

/-- Counterexample to claim C7 as stated: with an entry named CLAUDE.md
already present at the shadow root but the configured source path missing,
always-include processing reports a missing-source warning, not a skip. -/
theorem C7_counterexample :
    createAlwaysIncludedSymlinks (fun _ => false) [.rfile "CLAUDE.md"]
        ⟨[], [["root", "CLAUDE.md"]]⟩ =
      ([.rfile "CLAUDE.md"], [.cannotInclude ["root", "CLAUDE.md"]]) :=
  rfl

/-- Claim C7 (amended): for every always-included item whose base name
already exists as an entry at the shadow root, processing leaves that
pre-existing entry untouched and never errors; it reports a skip when the
item's source path exists, and a missing-source warning otherwise. -/
theorem C7_always_include_never_overwrites :
    ∀ (srcExists : FPath → Bool) (ws : ShadowWS) (ai : AlwaysIncludeConfig)
      (item : FPath), item ∈ ai.folders ++ ai.files →
      (ws.map rentName).contains (item.getLastD "") = true →
      findEntry (createAlwaysIncludedSymlinks srcExists ws ai).1
          (item.getLastD "") = findEntry ws (item.getLastD "") ∧
      (srcExists item = true →
        SMEvent.skippedExisting (item.getLastD "") ∈
          (createAlwaysIncludedSymlinks srcExists ws ai).2) ∧
      (srcExists item = false →
        SMEvent.cannotInclude item ∈
          (createAlwaysIncludedSymlinks srcExists ws ai).2) := by
  intro se ws ai item hmem hc
  unfold createAlwaysIncludedSymlinks
  refine ⟨?_, ?_, ?_⟩
  · obtain ⟨tail, ht⟩ := aiFold_ws_shape se (ai.folders ++ ai.files) (ws, [])
    rw [ht]
    exact findEntry_append_of_contains ws tail _ hc
  · intro hse
    exact aiFold_skip_event se _ (ws, []) item hmem hc hse
  · intro hse
    exact aiFold_warn_event se _ (ws, []) item hmem hse

/-- Witness for C7 at the CLAUDE.md scenario with an existing source. -/
theorem C7_always_include_never_overwrites_witness :
    SMEvent.skippedExisting "CLAUDE.md" ∈
      (createAlwaysIncludedSymlinks (fun _ => true) [.rfile "CLAUDE.md"]
        ⟨[], [["root", "CLAUDE.md"]]⟩).2 :=
  (C7_always_include_never_overwrites (fun _ => true) [.rfile "CLAUDE.md"]
    ⟨[], [["root", "CLAUDE.md"]]⟩ ["root", "CLAUDE.md"]
    (by decide) (by decide)).2.1 rfl

theorem detect_ws_go_eval_filter (dirPath : FPath) (files : DirFiles)
    (rules : List ManagerRule) (seen : List String)
    (roots : List (String × FPath)) (eval : List ManagerRule) (eco : String) :
    (detect_ws_go dirPath files rules seen roots eval).2.filter
        (fun r => r.ecosystem == eco) =
      eval.filter (fun r => r.ecosystem == eco) ++
      (if seen.contains eco then []
       else takeToFirstMatch (fun r => ws_spec_matches files r.workspace)
         (rules.filter (fun r => !(r.workspace == "") && r.ecosystem == eco))) := by
  induction rules generalizing seen roots eval with
  | nil => simp [detect_ws_go, takeToFirstMatch]
  | cons r rs ih =>
      by_cases hw : (r.workspace == "") = true
      · rw [detect_ws_go, if_pos hw, ih]
        have hwf : (!(r.workspace == "") && r.ecosystem == eco) = false := by
          simp [hw]
        simp [List.filter_cons, hwf]
      · have hw2 : r.workspace ≠ "" := by simpa using hw
        by_cases hseen : seen.contains r.ecosystem = true
        · rw [detect_ws_go, if_neg hw, if_pos hseen, ih]
          by_cases he : r.ecosystem = eco
          · subst he
            have hm : r.ecosystem ∈ seen := by simpa using hseen
            simp [hm]
          · have hf : (!(r.workspace == "") && r.ecosystem == eco) = false := by
              simp [he]
            simp [List.filter_cons, hf]
        · have hseen2 : r.ecosystem ∉ seen := by simpa using hseen
          by_cases hmatch : ws_spec_matches files r.workspace = true
          · rw [detect_ws_go, if_neg hw, if_neg hseen, if_pos hmatch, ih]
            by_cases he : r.ecosystem = eco
            · subst he
              have h2 : (!(r.workspace == "") && r.ecosystem == r.ecosystem)
                  = true := by simp [hw]
              simp [List.filter_append, List.filter_cons, h2, hseen2, hw2,
                takeToFirstMatch, hmatch]
            · have hf : (!(r.workspace == "") && r.ecosystem == eco) = false := by
                simp [he]
              simp [List.filter_append, List.filter_cons, hf, he,
                Ne.symm he]
          · have hm2 : ws_spec_matches files r.workspace = false := by
              simpa using hmatch
            rw [detect_ws_go, if_neg hw, if_neg hseen, if_neg hmatch, ih]
            by_cases he : r.ecosystem = eco
            · subst he
              have h2 : (!(r.workspace == "") && r.ecosystem == r.ecosystem)
                  = true := by simp [hw]
              simp [List.filter_append, List.filter_cons, h2, hseen2, hw2,
                takeToFirstMatch, hm2]
            · have hf : (!(r.workspace == "") && r.ecosystem == eco) = false := by
                simp [he]
              simp [List.filter_append, List.filter_cons, hf, he]

theorem detect_ws_go_roots_bound (dirPath : FPath) (files : DirFiles)
    (rules : List ManagerRule) (seen : List String)
    (roots : List (String × FPath)) (eval : List ManagerRule) (eco : String) :
    ((detect_ws_go dirPath files rules seen roots eval).1.filter
        (fun e => e.1 == eco)).length ≤
      (roots.filter (fun e => e.1 == eco)).length +
        (if seen.contains eco then 0 else 1) := by
  induction rules generalizing seen roots eval with
  | nil =>
      simp only [detect_ws_go]
      split <;> omega
  | cons r rs ih =>
      by_cases hw : (r.workspace == "") = true
      · rw [detect_ws_go, if_pos hw]
        exact ih seen roots eval
      · by_cases hseen : seen.contains r.ecosystem = true
        · rw [detect_ws_go, if_neg hw, if_pos hseen]
          exact ih seen roots eval
        · by_cases hmatch : ws_spec_matches files r.workspace = true
          · rw [detect_ws_go, if_neg hw, if_neg hseen, if_pos hmatch]
            refine le_trans (ih _ _ _) ?_
            have hseen2 : r.ecosystem ∉ seen := by simpa using hseen
            by_cases he : r.ecosystem = eco
            · subst he
              simp [List.filter_append, List.filter_cons, hseen2]
            · have hf : ((r.ecosystem, dirPath).1 == eco) = false := by
                simp [he]
              cases hs : seen.contains eco with
              | false =>
                  have hm : eco ∉ seen := by simpa using hs
                  have hnot : ¬((seen ++ [r.ecosystem]).contains eco = true) := by
                    intro hcontra
                    have hmem : eco ∈ seen ++ [r.ecosystem] := by simpa using hcontra
                    rcases List.mem_append.mp hmem with h | h
                    · exact hm h
                    · have heq : eco = r.ecosystem := by simpa using h
                      exact he heq.symm
                  rw [if_neg hnot]
                  simp [List.filter_append, List.filter_cons, hf]
              | true =>
                  have hm : eco ∈ seen := by simpa using hs
                  rw [if_pos (show (seen ++ [r.ecosystem]).contains eco = true by
                    simp [hm])]
                  simp [List.filter_append, List.filter_cons, hf]
          · rw [detect_ws_go, if_neg hw, if_neg hseen, if_neg hmatch]
            exact ih seen roots (eval ++ [r])

/-- Counterexample to claim C5 as stated: on a directory holding only a
package.json that declares workspaces, the workspace specs of two js rules
(pnpm, then bun) are evaluated — pnpm's spec fails, so the ecosystem is not
yet marked seen and bun's spec is evaluated next, contradicting that only
the first-declared non-empty-spec rule of the ecosystem is ever evaluated. -/
theorem C5_counterexample :
    ((detect_workspace_roots ["d"]
        [("package.json", "\x7b \"workspaces\": [\"p\"] \x7d")]).2.filter
      (fun r => r.ecosystem == "js")).map (fun r => r.name) = ["pnpm", "bun"] :=
  rfl

/-- Claim C5 (amended): during workspace-root detection, for each ecosystem
the workspace specs of its non-empty-spec rules are evaluated in declared
order up to and including the first whose spec matches (so when earlier
specs fail, later same-ecosystem specs are evaluated too), and at most one
workspace root is recorded per ecosystem. -/
theorem C5_workspace_spec_evaluation (dirPath : FPath) (files : DirFiles)
    (eco : String) :
    (detect_workspace_roots dirPath files).2.filter
        (fun r => r.ecosystem == eco) =
      takeToFirstMatch (fun r => ws_spec_matches files r.workspace)
        (MANAGERS.filter (fun r => !(r.workspace == "") && r.ecosystem == eco)) ∧
    ((detect_workspace_roots dirPath files).1.filter
        (fun e => e.1 == eco)).length ≤ 1 := by
  constructor
  · rw [detect_workspace_roots, detect_ws_go_eval_filter]
    simp
  · refine le_trans (detect_ws_go_roots_bound dirPath files MANAGERS [] [] [] eco) ?_
    simp

theorem planStep_of_none (baseDir : FPath)
    (st : List (String × FPath) × List (FPath × String)) (d : DirNode)
    (h : get_manager_for_dir d.files = none) : planStep baseDir st d = st := by
  simp only [planStep, h]

theorem planStep_of_covered (baseDir : FPath)
    (st : List (String × FPath) × List (FPath × String)) (d : DirNode)
    (m : String) (h : get_manager_for_dir d.files = some m)
    (hb : d.path ≠ baseDir)
    (hcov : is_covered_by_workspace d.path
      ((get_ecosystem_for_manager m).getD "") st.1 = true) :
    planStep baseDir st d = st := by
  simp only [planStep, h]
  rw [if_pos (by simp [hb, hcov])]

theorem planStep_of_accepted (baseDir : FPath)
    (st : List (String × FPath) × List (FPath × String)) (d : DirNode)
    (m : String) (h : get_manager_for_dir d.files = some m)
    (hb : d.path ≠ baseDir)
    (hcov : is_covered_by_workspace d.path
      ((get_ecosystem_for_manager m).getD "") st.1 = false) :
    planStep baseDir st d =
      (st.1 ++ (detect_workspace_roots d.path d.files).1,
       st.2 ++ [(d.path, m)]) := by
  simp only [planStep, h]
  rw [if_neg (by simp [hcov]), if_pos hb]

theorem planStep_jobs_shape (baseDir : FPath)
    (st : List (String × FPath) × List (FPath × String)) (d : DirNode) :
    ∃ t0, (planStep baseDir st d).2 = st.2 ++ t0 ∧
      ∀ j ∈ t0, (j : FPath × String).1 = d.path := by
  cases h : get_manager_for_dir d.files with
  | none => exact ⟨[], by rw [planStep_of_none _ _ _ h]; simp, by simp⟩
  | some m =>
      by_cases hb : d.path = baseDir
      · refine ⟨[(d.path, m)], ?_, by simp⟩
        simp only [planStep, h]
        rw [if_neg (by simp [hb])]
      · cases hcov : is_covered_by_workspace d.path
            ((get_ecosystem_for_manager m).getD "") st.1 with
        | true =>
            exact ⟨[], by rw [planStep_of_covered _ _ _ m h hb hcov]; simp,
              by simp⟩
        | false =>
            exact ⟨[(d.path, m)],
              by rw [planStep_of_accepted _ _ _ m h hb hcov], by simp⟩

theorem planFold_jobs_shape (baseDir : FPath) (l : List DirNode)
    (st : List (String × FPath) × List (FPath × String)) :
    ∃ tail, (l.foldl (planStep baseDir) st).2 = st.2 ++ tail ∧
      ∀ j ∈ tail, (j : FPath × String).1 ∈ l.map DirNode.path := by
  induction l generalizing st with
  | nil => exact ⟨[], by simp, by simp⟩
  | cons x xs ih =>
      obtain ⟨t0, h0, hp0⟩ := planStep_jobs_shape baseDir st x
      obtain ⟨t2, h2, hp2⟩ := ih (planStep baseDir st x)
      refine ⟨t0 ++ t2, ?_, ?_⟩
      · rw [List.foldl_cons, h2, h0, List.append_assoc]
      · intro j hj
        rcases List.mem_append.mp hj with hj | hj
        · rw [List.map_cons]
          exact List.mem_cons.mpr (Or.inl (hp0 j hj))
        · rw [List.map_cons]
          exact List.mem_cons.mpr (Or.inr (hp2 j hj))

theorem planFold_jobs_mono (baseDir : FPath) (l : List DirNode)
    (st : List (String × FPath) × List (FPath × String)) (j : FPath × String)
    (hj : j ∈ st.2) : j ∈ (l.foldl (planStep baseDir) st).2 := by
  obtain ⟨tail, ht, _⟩ := planFold_jobs_shape baseDir l st
  rw [ht]
  exact List.mem_append.mpr (Or.inl hj)

/-- Claim C1: in every install-planner scan, a classified non-base directory
is excluded from the InstallJob list exactly when a workspace root of its
own ecosystem recorded by the time it is visited strictly contains it (so a
classified directory of a different ecosystem inside that root is still
planned); in particular, for a base with api (go.mod, no go.work), web
(pnpm-lock.yaml and pnpm-workspace.yaml) and web/app1, web/app2 (only
package.json), the plan is exactly InstallJob(api, go), InstallJob(web,
pnpm). -/
theorem C1_install_planner_workspace_coverage :
    (∀ (tree₁ tree₂ : List DirNode) (d : DirNode) (baseDir : FPath)
        (m : String),
      get_manager_for_dir d.files = some m →
      d.path ≠ baseDir →
      d.path ∉ tree₁.map DirNode.path →
      d.path ∉ tree₂.map DirNode.path →
      ((d.path, m) ∈ install_dependencies_plan (tree₁ ++ d :: tree₂) baseDir ↔
        ¬ is_covered_by_workspace d.path
            ((get_ecosystem_for_manager m).getD "")
            (tree₁.foldl (planStep baseDir)
              ((detect_workspace_roots baseDir
                (filesOf (tree₁ ++ d :: tree₂) baseDir)).1, [])).1 = true)) ∧
    install_dependencies_plan
      [⟨["base"], []⟩,
       ⟨["base", "api"], [("go.mod", "module m")]⟩,
       ⟨["base", "web"],
         [("pnpm-lock.yaml", ""), ("pnpm-workspace.yaml", "packages:")]⟩,
       ⟨["base", "web", "app1"], [("package.json", "{}")]⟩,
       ⟨["base", "web", "app2"], [("package.json", "{}")]⟩] ["base"] =
      [(["base", "api"], "go"), (["base", "web"], "pnpm")] := by
  refine ⟨?_, by rfl⟩
  intro tree₁ tree₂ d baseDir m hm hb h1 h2
  unfold install_dependencies_plan
  rw [List.foldl_append, List.foldl_cons]
  set init := ((detect_workspace_roots baseDir
    (filesOf (tree₁ ++ d :: tree₂) baseDir)).1,
    ([] : List (FPath × String))) with hinit
  set st₁ := tree₁.foldl (planStep baseDir) init with hst₁
  have hst₁jobs : ∀ j ∈ st₁.2, (j : FPath × String).1 ∈ tree₁.map DirNode.path := by
    obtain ⟨tail, ht, hp⟩ := planFold_jobs_shape baseDir tree₁ init
    rw [hst₁, ht]
    simpa [hinit] using hp
  cases hcov : is_covered_by_workspace d.path
      ((get_ecosystem_for_manager m).getD "") st₁.1 with
  | true =>
      rw [planStep_of_covered baseDir st₁ d m hm hb hcov]
      constructor
      · intro hmem
        obtain ⟨tail, ht, hp⟩ := planFold_jobs_shape baseDir tree₂ st₁
        rw [ht] at hmem
        rcases List.mem_append.mp hmem with hj | hj
        · exact absurd (hst₁jobs _ hj) h1
        · exact absurd (hp _ hj) h2
      · intro hfalse
        exact absurd rfl hfalse
  | false =>
      rw [planStep_of_accepted baseDir st₁ d m hm hb hcov]
      constructor
      · intro _
        simp [hcov]
      · intro _
        exact planFold_jobs_mono baseDir tree₂ _ (d.path, m)
          (List.mem_append.mpr (Or.inr (List.mem_singleton.mpr rfl)))

/-- Witness for C1: the api directory is planned when nothing covers it. -/
theorem C1_install_planner_workspace_coverage_witness :
    (["base", "api"], "go") ∈ install_dependencies_plan
      [⟨["base"], []⟩, ⟨["base", "api"], [("go.mod", "module m")]⟩] ["base"] :=
  (C1_install_planner_workspace_coverage.1 [⟨["base"], []⟩] []
    ⟨["base", "api"], [("go.mod", "module m")]⟩ ["base"] "go"
    (by rfl) (by decide) (by decide) (by decide)).mpr (by decide)

/-! ## Update idempotence: structure and entry-lookup lemmas -/

theorem addToStructure_self (s : List (String × List String)) (r wt : String) :
    (structureLookup (addToStructure s r wt) r).contains wt = true := by
  induction s with
  | nil => simp [addToStructure, structureLookup, List.find?]
  | cons kv rest ih =>
      obtain ⟨k, ws⟩ := kv
      by_cases hk : (k == r) = true
      · have hk2 : k = r := by simpa using hk
        subst hk2
        by_cases hw : wt ∈ ws
        · simp [addToStructure, structureLookup, List.find?, hw]
        · simp [addToStructure, structureLookup, List.find?, hw]
      · have hk2 : ¬k = r := by simpa using hk
        simp only [addToStructure, if_neg hk]
        simp only [structureLookup, List.find?] at ih ⊢
        simp only [hk]
        exact ih

theorem addToStructure_mono (s : List (String × List String))
    (r wt r' wt' : String)
    (h : (structureLookup s r').contains wt' = true) :
    (structureLookup (addToStructure s r wt) r').contains wt' = true := by
  induction s with
  | nil => simp [structureLookup, List.find?] at h
  | cons kv rest ih =>
      obtain ⟨k, ws⟩ := kv
      by_cases hk : (k == r) = true
      · by_cases hk' : (k == r') = true
        · simp only [structureLookup, List.find?, hk'] at h
          simp only [addToStructure, if_pos hk, structureLookup, List.find?, hk']
          simp only [Option.map_some', Option.getD_some] at h ⊢
          have hm : wt' ∈ ws := by simpa using h
          by_cases hw : wt ∈ ws
          · simp [hw, hm]
          · simp [hw, hm]
        · simp only [structureLookup, List.find?, hk'] at h
          simp only [addToStructure, if_pos hk, structureLookup, List.find?, hk']
          exact h
      · by_cases hk' : (k == r') = true
        · simp only [structureLookup, List.find?, hk'] at h
          simp only [addToStructure, if_neg hk, structureLookup, List.find?, hk']
          exact h
        · simp only [structureLookup, List.find?, hk'] at h
          simp only [addToStructure, if_neg hk, structureLookup, List.find?, hk']
          exact ih h

theorem newRepoStructure_fold_mem (f : Folder) (fl : List Folder)
    (acc : List (String × List String))
    (h : (structureLookup acc (parseRepoAndWorktree f.name).1).contains
          (parseRepoAndWorktree f.name).2 = true ∨ f ∈ fl) :
    (structureLookup (fl.foldl (fun a g =>
        let rw := parseRepoAndWorktree g.name
        addToStructure a rw.1 rw.2) acc)
      (parseRepoAndWorktree f.name).1).contains
        (parseRepoAndWorktree f.name).2 = true := by
  induction fl generalizing acc with
  | nil =>
      rcases h with h | h
      · simpa using h
      · cases h
  | cons g fl ih =>
      rw [List.foldl_cons]
      rcases h with h | h
      · exact ih _ (Or.inl (addToStructure_mono _ _ _ _ _ h))
      · rcases List.mem_cons.mp h with rfl | hmem
        · exact ih _ (Or.inl (addToStructure_self _ _ _))
        · exact ih _ (Or.inr hmem)

/-- Every folder of the request appears in newRepoStructure under its parsed
repo and worktree name. -/
theorem newRepoStructure_mem (folders : List Folder) (f : Folder)
    (hf : f ∈ folders) :
    (structureLookup (newRepoStructure folders)
      (parseRepoAndWorktree f.name).1).contains
        (parseRepoAndWorktree f.name).2 = true := by
  unfold newRepoStructure
  exact newRepoStructure_fold_mem f folders [] (Or.inr hf)

theorem findEntry_mem {ws : ShadowWS} {n : String} {e : RootEnt}
    (h : findEntry ws n = some e) : e ∈ ws :=
  List.mem_of_find?_eq_some h

theorem findEntry_name {ws : ShadowWS} {n : String} {e : RootEnt}
    (h : findEntry ws n = some e) : rentName e = n := by
  have := List.find?_some h
  simpa using this

theorem mem_replaceEntry {ws : ShadowWS} {n : String} {e' e : RootEnt}
    (h : e ∈ replaceEntry ws n e') : e = e' ∨ e ∈ ws := by
  induction ws with
  | nil => simp [replaceEntry] at h
  | cons x xs ih =>
      by_cases hx : (rentName x == n) = true
      · simp only [replaceEntry, if_pos hx] at h
        rcases List.mem_cons.mp h with rfl | hmem
        · exact Or.inl rfl
        · exact Or.inr (List.mem_cons.mpr (Or.inr hmem))
      · simp only [replaceEntry, if_neg hx] at h
        rcases List.mem_cons.mp h with rfl | hmem
        · exact Or.inr (List.mem_cons.mpr (Or.inl rfl))
        · rcases ih hmem with h | h
          · exact Or.inl h
          · exact Or.inr (List.mem_cons.mpr (Or.inr h))

theorem findEntry_replaceEntry_same {ws : ShadowWS} {n : String}
    {e e' : RootEnt} (hn : rentName e' = n) (h : findEntry ws n = some e) :
    findEntry (replaceEntry ws n e') n = some e' := by
  induction ws with
  | nil => simp [findEntry, List.find?] at h
  | cons x xs ih =>
      by_cases hx : (rentName x == n) = true
      · have hx2 : rentName x = n := by simpa using hx
        simp [replaceEntry, hx2, findEntry, List.find?, hn]
      · simp only [findEntry, List.find?, hx] at h
        simp only [replaceEntry, if_neg hx, findEntry, List.find?, hx]
        exact ih h

theorem findEntry_replaceEntry_other {ws : ShadowWS} {n n' : String}
    {e' : RootEnt} (hn : rentName e' = n) (hne : n' ≠ n) :
    findEntry (replaceEntry ws n e') n' = findEntry ws n' := by
  induction ws with
  | nil => simp [replaceEntry]
  | cons x xs ih =>
      by_cases hx : (rentName x == n) = true
      · have hx2 : rentName x = n := by simpa using hx
        have he' : (rentName e' == n') = false := by
          simp [hn, Ne.symm hne]
        have hxn : (rentName x == n') = false := by
          simp [hx2, Ne.symm hne]
        have hnn : (n == n') = false := by
          simp
          exact Ne.symm hne
        simp [replaceEntry, hx2, findEntry, List.find?, he', hxn, hnn]
      · simp only [replaceEntry, if_neg hx, findEntry, List.find?]
        cases hx' : (rentName x == n') with
        | true => rfl
        | false => exact ih

/-! ## Update is the identity on synced states -/

theorem filterMap_id_of {α : Type} (l : List α) (f : α → Option α)
    (h : ∀ e ∈ l, f e = some e) : l.filterMap f = l := by
  induction l with
  | nil => rfl
  | cons x xs ih =>
      rw [List.filterMap_cons, h x (List.mem_cons_self x xs)]
      rw [ih (fun e he => h e (List.mem_cons.mpr (Or.inr he)))]

theorem removalPhase_id (newStr : List (String × List String)) (ws : ShadowWS)
    (hA : LinksReq newStr ws) (hB : DirsReq newStr ws) :
    removalPhase newStr ws = ws := by
  unfold removalPhase
  apply filterMap_id_of
  intro e he
  cases e with
  | rfile n => rfl
  | rlink n t => rfl
  | rdir d =>
      show (if (d.rname.data.head? == some '.') = true then
          some (RootEnt.rdir d)
        else
          if ((structureLookup newStr d.rname).isEmpty
              && (d.links.filter (fun l =>
                (structureLookup newStr d.rname).contains l.1)).isEmpty
              && d.ofiles.isEmpty && d.odirs.isEmpty) = true then none
          else some (RootEnt.rdir ⟨d.rname,
            d.links.filter (fun l =>
              (structureLookup newStr d.rname).contains l.1),
            d.ofiles, d.odirs⟩)) = some (RootEnt.rdir d)
      by_cases hdot : (d.rname.data.head? == some '.') = true
      · rw [if_pos hdot]
      · have hdot2 : (d.rname.data.head? == some '.') = false := by
          simpa using hdot
        have hkeep : d.links.filter (fun l =>
            (structureLookup newStr d.rname).contains l.1) = d.links :=
          List.filter_eq_self.mpr (fun l hl => hA d he hdot2 l hl)
        rw [if_neg hdot, hkeep]
        by_cases hlk : structureLookup newStr d.rname = []
        · have hBo := hB d he hdot2 hlk
          have hcond : ¬((structureLookup newStr d.rname).isEmpty
              && d.links.isEmpty && d.ofiles.isEmpty && d.odirs.isEmpty)
                = true := by
            intro hcontra
            simp only [Bool.and_eq_true, List.isEmpty_iff] at hcontra
            exact hBo ⟨hcontra.1.2, hcontra.2⟩
          rw [if_neg hcond]
        · have hcond : ¬((structureLookup newStr d.rname).isEmpty
              && d.links.isEmpty && d.ofiles.isEmpty && d.odirs.isEmpty)
                = true := by
            intro hcontra
            simp only [Bool.and_eq_true, List.isEmpty_iff] at hcontra
            exact hlk hcontra.1.1.1
          rw [if_neg hcond]

theorem updateFolderStep_noop (snap : List (String × List String))
    (ws : ShadowWS) (ev : List SMEvent) (f : Folder) (h : AddNoop ws f) :
    (updateFolderStep snap (ws, ev) f).1 = ws := by
  unfold updateFolderStep
  by_cases hskip : (structureLookup snap
      (parseRepoAndWorktree f.name).1).contains
        (parseRepoAndWorktree f.name).2 = true
  · rw [if_pos hskip]
  · rw [if_neg hskip]
    rcases h with ⟨d, hfe, hd⟩ | ⟨n, hfe⟩ | ⟨n, t, hfe⟩
    · rw [hfe]
      have hcond : ((d.links.map (fun l => l.1)).contains
          (parseRepoAndWorktree f.name).2
          || d.ofiles.contains (parseRepoAndWorktree f.name).2
          || d.odirs.contains (parseRepoAndWorktree f.name).2) = true := by
        rw [Bool.or_eq_true, Bool.or_eq_true]
        rcases hd with h | h | h
        · exact Or.inl (Or.inl h)
        · exact Or.inl (Or.inr h)
        · exact Or.inr h
      show (if ((d.links.map (fun l => l.1)).contains
            (parseRepoAndWorktree f.name).2
            || d.ofiles.contains (parseRepoAndWorktree f.name).2
            || d.odirs.contains (parseRepoAndWorktree f.name).2) = true then
          (ws, ev ++ [SMEvent.linkError (parseRepoAndWorktree f.name).1
            (parseRepoAndWorktree f.name).2])
        else
          (replaceEntry ws (parseRepoAndWorktree f.name).1
            (RootEnt.rdir ⟨d.rname,
              d.links ++ [((parseRepoAndWorktree f.name).2, f.path)],
              d.ofiles, d.odirs⟩), ev)).1 = ws
      rw [if_pos hcond]
    · rw [hfe]
    · rw [hfe]

theorem updateFold_noop (snap : List (String × List String)) (ws : ShadowWS)
    (fl : List Folder) (h : ∀ f ∈ fl, AddNoop ws f) (ev : List SMEvent) :
    (fl.foldl (updateFolderStep snap) (ws, ev)).1 = ws := by
  induction fl generalizing ev with
  | nil => rfl
  | cons f fl ih =>
      rw [List.foldl_cons]
      have h1 : (updateFolderStep snap (ws, ev) f).1 = ws :=
        updateFolderStep_noop snap ws ev f (h f (List.mem_cons_self f fl))
      have h2 : updateFolderStep snap (ws, ev) f =
          (ws, (updateFolderStep snap (ws, ev) f).2) := by
        have he := Prod.mk.eta (p := updateFolderStep snap (ws, ev) f)
        rw [h1] at he
        exact he.symm
      rw [h2]
      exact ih (fun g hg => h g (List.mem_cons.mpr (Or.inr hg))) _

theorem aiFold_noop (se : FPath → Bool) (ws : ShadowWS) (items : List FPath)
    (h : ∀ item ∈ items, se item = true →
      ((ws.map rentName).contains (item.getLastD "")) = true)
    (ev : List SMEvent) :
    (items.foldl (aiStep se) (ws, ev)).1 = ws := by
  induction items generalizing ev with
  | nil => rfl
  | cons x xs ih =>
      rw [List.foldl_cons]
      have h1 : (aiStep se (ws, ev) x).1 = ws := by
        unfold aiStep
        by_cases hse : se x = true
        · rw [if_pos hse, if_pos (h x (List.mem_cons_self x xs) hse)]
        · rw [if_neg hse]
      have h2 : aiStep se (ws, ev) x = (ws, (aiStep se (ws, ev) x).2) := by
        have he := Prod.mk.eta (p := aiStep se (ws, ev) x)
        rw [h1] at he
        exact he.symm
      rw [h2]
      exact ih (fun y hy => h y (List.mem_cons.mpr (Or.inr hy))) _

theorem updateExisting_noop (se : FPath → Bool) (ws : ShadowWS)
    (folders : List Folder) (ai : Option AlwaysIncludeConfig)
    (hA : LinksReq (newRepoStructure folders) ws)
    (hB : DirsReq (newRepoStructure folders) ws)
    (hC : ∀ f ∈ folders, AddNoop ws f)
    (hD : AiDone se ai ws) :
    (updateExistingShadowWorkspace se ws folders ai).1 = ws := by
  cases ai with
  | none =>
      show (folders.foldl (updateFolderStep (wsSnapshot ws))
        (removalPhase (newRepoStructure folders) ws, [])).1 = ws
      rw [removalPhase_id _ _ hA hB]
      exact updateFold_noop _ _ _ hC []
  | some cfg =>
      show (createAlwaysIncludedSymlinks se
          (folders.foldl (updateFolderStep (wsSnapshot ws))
            (removalPhase (newRepoStructure folders) ws, [])).1 cfg).1 = ws
      rw [removalPhase_id _ _ hA hB, updateFold_noop _ _ _ hC []]
      unfold createAlwaysIncludedSymlinks
      exact aiFold_noop se ws _ (fun item hi hse => hD item hi hse) []

/-! ## Update establishes the synced invariants -/

theorem findEntry_append_of_none {l₁ l₂ : ShadowWS} {n : String}
    (h : findEntry l₁ n = none) :
    findEntry (l₁ ++ l₂) n = findEntry l₂ n := by
  induction l₁ with
  | nil => rfl
  | cons x xs ih =>
      cases hx : (rentName x == n) with
      | true =>
          have := List.find?_eq_none.mp h x (List.mem_cons_self x xs)
          simp [hx] at this
      | false =>
          unfold findEntry at h ⊢
          simp only [List.find?, hx] at h
          simp only [List.cons_append, List.find?, hx]
          exact ih h

theorem removalEntry_rdir_eq (newStr : List (String × List String))
    (d0 : RepoDir) :
    removalEntry newStr (RootEnt.rdir d0) =
      (if (d0.rname.data.head? == some '.') = true then
        some (RootEnt.rdir d0)
      else
        if ((structureLookup newStr d0.rname).isEmpty
            && (d0.links.filter (fun l =>
              (structureLookup newStr d0.rname).contains l.1)).isEmpty
            && d0.ofiles.isEmpty && d0.odirs.isEmpty) = true then none
        else some (RootEnt.rdir ⟨d0.rname,
          d0.links.filter (fun l =>
            (structureLookup newStr d0.rname).contains l.1),
          d0.ofiles, d0.odirs⟩)) := rfl

theorem removalPhase_LinksReq (newStr : List (String × List String))
    (ws : ShadowWS) : LinksReq newStr (removalPhase newStr ws) := by
  intro d1 hd1 hdot l hl
  obtain ⟨e0, _, hres⟩ := List.mem_filterMap.mp hd1
  cases e0 with
  | rfile n => cases hres
  | rlink n t => cases hres
  | rdir d0 =>
      rw [removalEntry_rdir_eq] at hres
      by_cases hdot0 : (d0.rname.data.head? == some '.') = true
      · rw [if_pos hdot0] at hres
        obtain rfl : d0 = d1 := by
          cases hres
          rfl
        exact absurd hdot0 (by simp [hdot])
      · rw [if_neg hdot0] at hres
        by_cases hcond : ((structureLookup newStr d0.rname).isEmpty
            && (d0.links.filter (fun l =>
              (structureLookup newStr d0.rname).contains l.1)).isEmpty
            && d0.ofiles.isEmpty && d0.odirs.isEmpty) = true
        · rw [if_pos hcond] at hres
          cases hres
        · rw [if_neg hcond] at hres
          have hd : d1 = ⟨d0.rname, d0.links.filter (fun l =>
              (structureLookup newStr d0.rname).contains l.1),
              d0.ofiles, d0.odirs⟩ := by
            cases hres
            rfl
          subst hd
          simp only at hl
          exact (List.mem_filter.mp hl).2

theorem removalPhase_DirsReq (newStr : List (String × List String))
    (ws : ShadowWS) : DirsReq newStr (removalPhase newStr ws) := by
  intro d1 hd1 hdot hlk hcontra
  obtain ⟨e0, _, hres⟩ := List.mem_filterMap.mp hd1
  cases e0 with
  | rfile n => cases hres
  | rlink n t => cases hres
  | rdir d0 =>
      rw [removalEntry_rdir_eq] at hres
      by_cases hdot0 : (d0.rname.data.head? == some '.') = true
      · rw [if_pos hdot0] at hres
        obtain rfl : d0 = d1 := by
          cases hres
          rfl
        exact absurd hdot0 (by simp [hdot])
      · rw [if_neg hdot0] at hres
        by_cases hcond : ((structureLookup newStr d0.rname).isEmpty
            && (d0.links.filter (fun l =>
              (structureLookup newStr d0.rname).contains l.1)).isEmpty
            && d0.ofiles.isEmpty && d0.odirs.isEmpty) = true
        · rw [if_pos hcond] at hres
          cases hres
        · rw [if_neg hcond] at hres
          have hd : d1 = ⟨d0.rname, d0.links.filter (fun l =>
              (structureLookup newStr d0.rname).contains l.1),
              d0.ofiles, d0.odirs⟩ := by
            cases hres
            rfl
          subst hd
          simp only at hlk hcontra
          apply hcond
          have hfe2 : d0.links.filter (fun l =>
              (structureLookup newStr d0.rname).contains l.1) = [] := by
            apply List.filter_eq_nil_iff.mpr
            intro l _
            rw [hlk]
            simp
          rw [hfe2, hlk, hcontra.1, hcontra.2]
          rfl

theorem updateFolderStep_shape (snap : List (String × List String))
    (st : ShadowWS × List SMEvent) (f : Folder) :
    (updateFolderStep snap st f).1 = st.1 ∨
    (findEntry st.1 (parseRepoAndWorktree f.name).1 = none ∧
     (updateFolderStep snap st f).1 =
       st.1 ++ [RootEnt.rdir ⟨(parseRepoAndWorktree f.name).1,
         [((parseRepoAndWorktree f.name).2, f.path)], [], []⟩]) ∨
    (∃ d0 : RepoDir,
     findEntry st.1 (parseRepoAndWorktree f.name).1 =
       some (RootEnt.rdir d0) ∧
     (updateFolderStep snap st f).1 =
       replaceEntry st.1 (parseRepoAndWorktree f.name).1
         (RootEnt.rdir ⟨d0.rname,
           d0.links ++ [((parseRepoAndWorktree f.name).2, f.path)],
           d0.ofiles, d0.odirs⟩)) := by
  unfold updateFolderStep
  by_cases hskip : (structureLookup snap
      (parseRepoAndWorktree f.name).1).contains
        (parseRepoAndWorktree f.name).2 = true
  · rw [if_pos hskip]
    exact Or.inl rfl
  · rw [if_neg hskip]
    cases hfe : findEntry st.1 (parseRepoAndWorktree f.name).1 with
    | none => exact Or.inr (Or.inl ⟨rfl, rfl⟩)
    | some e =>
        cases e with
        | rfile n => exact Or.inl rfl
        | rlink n t => exact Or.inl rfl
        | rdir d0 =>
            by_cases hconf : ((d0.links.map (fun l => l.1)).contains
                (parseRepoAndWorktree f.name).2
                || d0.ofiles.contains (parseRepoAndWorktree f.name).2
                || d0.odirs.contains (parseRepoAndWorktree f.name).2) = true
            · refine Or.inl ?_
              show (if ((d0.links.map (fun l => l.1)).contains
                    (parseRepoAndWorktree f.name).2
                    || d0.ofiles.contains (parseRepoAndWorktree f.name).2
                    || d0.odirs.contains (parseRepoAndWorktree f.name).2)
                      = true then
                  (st.1, st.2 ++ [SMEvent.linkError
                    (parseRepoAndWorktree f.name).1
                    (parseRepoAndWorktree f.name).2])
                else
                  (replaceEntry st.1 (parseRepoAndWorktree f.name).1
                    (RootEnt.rdir ⟨d0.rname,
                      d0.links ++ [((parseRepoAndWorktree f.name).2, f.path)],
                      d0.ofiles, d0.odirs⟩), st.2)).1 = st.1
              rw [if_pos hconf]
            · refine Or.inr (Or.inr ⟨d0, rfl, ?_⟩)
              show (if ((d0.links.map (fun l => l.1)).contains
                    (parseRepoAndWorktree f.name).2
                    || d0.ofiles.contains (parseRepoAndWorktree f.name).2
                    || d0.odirs.contains (parseRepoAndWorktree f.name).2)
                      = true then
                  (st.1, st.2 ++ [SMEvent.linkError
                    (parseRepoAndWorktree f.name).1
                    (parseRepoAndWorktree f.name).2])
                else
                  (replaceEntry st.1 (parseRepoAndWorktree f.name).1
                    (RootEnt.rdir ⟨d0.rname,
                      d0.links ++ [((parseRepoAndWorktree f.name).2, f.path)],
                      d0.ofiles, d0.odirs⟩), st.2)).1 = _
              rw [if_neg hconf]

theorem updateFolderStep_LinksReq (newStr snap : List (String × List String))
    (st : ShadowWS × List SMEvent) (f : Folder)
    (hwt : (structureLookup newStr (parseRepoAndWorktree f.name).1).contains
      (parseRepoAndWorktree f.name).2 = true)
    (hA : LinksReq newStr st.1) :
    LinksReq newStr (updateFolderStep snap st f).1 := by
  rcases updateFolderStep_shape snap st f with h | ⟨_, h⟩ | ⟨d0, hfe, h⟩
  · rw [h]
    exact hA
  · rw [h]
    intro d hd hdot l hl
    rcases List.mem_append.mp hd with hd | hd
    · exact hA d hd hdot l hl
    · have hd2 : d = ⟨(parseRepoAndWorktree f.name).1,
          [((parseRepoAndWorktree f.name).2, f.path)], [], []⟩ := by
        rcases List.mem_singleton.mp hd with h2
        cases h2
        rfl
      subst hd2
      simp only at hl
      rcases List.mem_singleton.mp hl with rfl
      simpa using hwt
  · rw [h]
    intro d hd hdot l hl
    have hname : d0.rname = (parseRepoAndWorktree f.name).1 :=
      findEntry_name hfe
    rcases mem_replaceEntry hd with heq | hd
    · obtain rfl : d = ⟨d0.rname,
          d0.links ++ [((parseRepoAndWorktree f.name).2, f.path)],
          d0.ofiles, d0.odirs⟩ := by
        cases heq
        rfl
      simp only at hl hdot
      rcases List.mem_append.mp hl with hl | hl
      · exact hA d0 (findEntry_mem hfe) hdot l hl
      · rcases List.mem_singleton.mp hl with rfl
        rw [hname]
        simpa using hwt
    · exact hA d hd hdot l hl

theorem updateFolderStep_DirsReq (newStr snap : List (String × List String))
    (st : ShadowWS × List SMEvent) (f : Folder)
    (hwt : (structureLookup newStr (parseRepoAndWorktree f.name).1).contains
      (parseRepoAndWorktree f.name).2 = true)
    (hB : DirsReq newStr st.1) :
    DirsReq newStr (updateFolderStep snap st f).1 := by
  rcases updateFolderStep_shape snap st f with h | ⟨_, h⟩ | ⟨d0, hfe, h⟩
  · rw [h]
    exact hB
  · rw [h]
    intro d hd hdot hlk
    rcases List.mem_append.mp hd with hd | hd
    · exact hB d hd hdot hlk
    · have hd2 : d = ⟨(parseRepoAndWorktree f.name).1,
          [((parseRepoAndWorktree f.name).2, f.path)], [], []⟩ := by
        rcases List.mem_singleton.mp hd with h2
        cases h2
        rfl
      subst hd2
      simp only at hlk
      rw [hlk] at hwt
      simp at hwt
  · rw [h]
    intro d hd hdot hlk
    have hname : d0.rname = (parseRepoAndWorktree f.name).1 :=
      findEntry_name hfe
    rcases mem_replaceEntry hd with heq | hd
    · obtain rfl : d = ⟨d0.rname,
          d0.links ++ [((parseRepoAndWorktree f.name).2, f.path)],
          d0.ofiles, d0.odirs⟩ := by
        cases heq
        rfl
      simp only at hlk
      rw [hname] at hlk
      rw [hlk] at hwt
      simp at hwt
    · exact hB d hd hdot hlk

theorem updateFold_AB (newStr snap : List (String × List String))
    (fl : List Folder)
    (hwts : ∀ f ∈ fl, (structureLookup newStr
      (parseRepoAndWorktree f.name).1).contains
        (parseRepoAndWorktree f.name).2 = true)
    (st : ShadowWS × List SMEvent)
    (hA : LinksReq newStr st.1) (hB : DirsReq newStr st.1) :
    LinksReq newStr ((fl.foldl (updateFolderStep snap) st).1) ∧
    DirsReq newStr ((fl.foldl (updateFolderStep snap) st).1) := by
  induction fl generalizing st with
  | nil => exact ⟨hA, hB⟩
  | cons f fl ih =>
      rw [List.foldl_cons]
      exact ih (fun g hg => hwts g (List.mem_cons.mpr (Or.inr hg)))
        (updateFolderStep snap st f)
        (updateFolderStep_LinksReq newStr snap st f
          (hwts f (List.mem_cons_self f fl)) hA)
        (updateFolderStep_DirsReq newStr snap st f
          (hwts f (List.mem_cons_self f fl)) hB)

theorem contains_append_left {α : Type} [BEq α] [LawfulBEq α]
    {l l' : List α} {a : α} (h : l.contains a = true) :
    (l ++ l').contains a = true := by
  have hm : a ∈ l := by simpa using h
  simp [List.mem_append, hm]

theorem updateFolderStep_skip_eq (snap : List (String × List String))
    (st : ShadowWS × List SMEvent) (f : Folder)
    (hskip : (structureLookup snap (parseRepoAndWorktree f.name).1).contains
      (parseRepoAndWorktree f.name).2 = true) :
    updateFolderStep snap st f = st := by
  unfold updateFolderStep
  rw [if_pos hskip]

theorem updateFolderStep_none_eq (snap : List (String × List String))
    (st : ShadowWS × List SMEvent) (f : Folder)
    (hskip : (structureLookup snap (parseRepoAndWorktree f.name).1).contains
      (parseRepoAndWorktree f.name).2 = false)
    (hfe : findEntry st.1 (parseRepoAndWorktree f.name).1 = none) :
    updateFolderStep snap st f =
      (st.1 ++ [RootEnt.rdir ⟨(parseRepoAndWorktree f.name).1,
        [((parseRepoAndWorktree f.name).2, f.path)], [], []⟩], st.2) := by
  unfold updateFolderStep
  rw [if_neg (by rw [hskip]; simp), hfe]

theorem updateFolderStep_rfile_eq (snap : List (String × List String))
    (st : ShadowWS × List SMEvent) (f : Folder) (n : String)
    (hskip : (structureLookup snap (parseRepoAndWorktree f.name).1).contains
      (parseRepoAndWorktree f.name).2 = false)
    (hfe : findEntry st.1 (parseRepoAndWorktree f.name).1 =
      some (RootEnt.rfile n)) :
    updateFolderStep snap st f =
      (st.1, st.2 ++ [SMEvent.linkError (parseRepoAndWorktree f.name).1
        (parseRepoAndWorktree f.name).2]) := by
  unfold updateFolderStep
  rw [if_neg (by rw [hskip]; simp), hfe]

theorem updateFolderStep_rlink_eq (snap : List (String × List String))
    (st : ShadowWS × List SMEvent) (f : Folder) (n : String) (t : FPath)
    (hskip : (structureLookup snap (parseRepoAndWorktree f.name).1).contains
      (parseRepoAndWorktree f.name).2 = false)
    (hfe : findEntry st.1 (parseRepoAndWorktree f.name).1 =
      some (RootEnt.rlink n t)) :
    updateFolderStep snap st f =
      (st.1, st.2 ++ [SMEvent.linkError (parseRepoAndWorktree f.name).1
        (parseRepoAndWorktree f.name).2]) := by
  unfold updateFolderStep
  rw [if_neg (by rw [hskip]; simp), hfe]

theorem updateFolderStep_rdir_eq (snap : List (String × List String))
    (st : ShadowWS × List SMEvent) (f : Folder) (d0 : RepoDir)
    (hskip : (structureLookup snap (parseRepoAndWorktree f.name).1).contains
      (parseRepoAndWorktree f.name).2 = false)
    (hfe : findEntry st.1 (parseRepoAndWorktree f.name).1 =
      some (RootEnt.rdir d0)) :
    updateFolderStep snap st f =
      (if ((d0.links.map (fun l => l.1)).contains
          (parseRepoAndWorktree f.name).2
          || d0.ofiles.contains (parseRepoAndWorktree f.name).2
          || d0.odirs.contains (parseRepoAndWorktree f.name).2) = true then
        (st.1, st.2 ++ [SMEvent.linkError (parseRepoAndWorktree f.name).1
          (parseRepoAndWorktree f.name).2])
      else
        (replaceEntry st.1 (parseRepoAndWorktree f.name).1
          (RootEnt.rdir ⟨d0.rname,
            d0.links ++ [((parseRepoAndWorktree f.name).2, f.path)],
            d0.ofiles, d0.odirs⟩), st.2)) := by
  unfold updateFolderStep
  rw [if_neg (by rw [hskip]; simp), hfe]

theorem addNoop_of_append_new (ws : ShadowWS) (f : Folder)
    (hfe : findEntry ws (parseRepoAndWorktree f.name).1 = none) :
    AddNoop (ws ++ [RootEnt.rdir ⟨(parseRepoAndWorktree f.name).1,
      [((parseRepoAndWorktree f.name).2, f.path)], [], []⟩]) f := by
  refine Or.inl ⟨⟨(parseRepoAndWorktree f.name).1,
    [((parseRepoAndWorktree f.name).2, f.path)], [], []⟩, ?_, Or.inl (by simp)⟩
  rw [findEntry_append_of_none hfe]
  simp [findEntry, List.find?, rentName]

theorem addNoop_of_replace (ws : ShadowWS) (f : Folder) (d0 : RepoDir)
    (hfe : findEntry ws (parseRepoAndWorktree f.name).1 =
      some (RootEnt.rdir d0)) :
    AddNoop (replaceEntry ws (parseRepoAndWorktree f.name).1
      (RootEnt.rdir ⟨d0.rname,
        d0.links ++ [((parseRepoAndWorktree f.name).2, f.path)],
        d0.ofiles, d0.odirs⟩)) f := by
  refine Or.inl ⟨⟨d0.rname,
    d0.links ++ [((parseRepoAndWorktree f.name).2, f.path)],
    d0.ofiles, d0.odirs⟩, ?_, Or.inl (by simp)⟩
  exact findEntry_replaceEntry_same (by simpa using findEntry_name hfe) hfe

theorem updateFolderStep_AddNoop_self (snap : List (String × List String))
    (st : ShadowWS × List SMEvent) (f : Folder)
    (hpre : (structureLookup snap (parseRepoAndWorktree f.name).1).contains
      (parseRepoAndWorktree f.name).2 = true → AddNoop st.1 f) :
    AddNoop (updateFolderStep snap st f).1 f := by
  cases hskip : (structureLookup snap
      (parseRepoAndWorktree f.name).1).contains
        (parseRepoAndWorktree f.name).2 with
  | true =>
      rw [updateFolderStep_skip_eq snap st f hskip]
      exact hpre hskip
  | false =>
      cases hfe : findEntry st.1 (parseRepoAndWorktree f.name).1 with
      | none =>
          rw [updateFolderStep_none_eq snap st f hskip hfe]
          exact addNoop_of_append_new st.1 f hfe
      | some e =>
          cases e with
          | rfile n =>
              rw [updateFolderStep_rfile_eq snap st f n hskip hfe]
              exact Or.inr (Or.inl ⟨n, hfe⟩)
          | rlink n t =>
              rw [updateFolderStep_rlink_eq snap st f n t hskip hfe]
              exact Or.inr (Or.inr ⟨n, t, hfe⟩)
          | rdir d0 =>
              rw [updateFolderStep_rdir_eq snap st f d0 hskip hfe]
              by_cases hconf : ((d0.links.map (fun l => l.1)).contains
                  (parseRepoAndWorktree f.name).2
                  || d0.ofiles.contains (parseRepoAndWorktree f.name).2
                  || d0.odirs.contains (parseRepoAndWorktree f.name).2) = true
              · rw [if_pos hconf]
                rw [Bool.or_eq_true, Bool.or_eq_true] at hconf
                refine Or.inl ⟨d0, hfe, ?_⟩
                rcases hconf with (h | h) | h
                · exact Or.inl h
                · exact Or.inr (Or.inl h)
                · exact Or.inr (Or.inr h)
              · rw [if_neg hconf]
                exact addNoop_of_replace st.1 f d0 hfe

theorem addNoop_of_append (ws tail : ShadowWS) (f : Folder)
    (h : AddNoop ws f) : AddNoop (ws ++ tail) f := by
  rcases h with ⟨d, hfe, hd⟩ | ⟨n, hfe⟩ | ⟨n, t, hfe⟩
  · exact Or.inl ⟨d, find?_append_of_some tail hfe, hd⟩
  · exact Or.inr (Or.inl ⟨n, find?_append_of_some tail hfe⟩)
  · exact Or.inr (Or.inr ⟨n, t, find?_append_of_some tail hfe⟩)

theorem updateFolderStep_preserves_AddNoop (snap : List (String × List String))
    (st : ShadowWS × List SMEvent) (g f : Folder) (h : AddNoop st.1 f) :
    AddNoop (updateFolderStep snap st g).1 f := by
  rcases updateFolderStep_shape snap st g with hsh | ⟨_, hsh⟩ | ⟨d0, hfeg, hsh⟩
  · rw [hsh]
    exact h
  · rw [hsh]
    exact addNoop_of_append st.1 _ f h
  · rw [hsh]
    by_cases heq : (parseRepoAndWorktree f.name).1 =
        (parseRepoAndWorktree g.name).1
    · rcases h with ⟨d, hfe, hd⟩ | ⟨n, hfe⟩ | ⟨n, t, hfe⟩
      · rw [heq] at hfe
        have hdd : d = d0 := by
          have := hfe.symm.trans hfeg
          cases this
          rfl
        subst hdd
        refine Or.inl ⟨⟨d.rname,
          d.links ++ [((parseRepoAndWorktree g.name).2, g.path)],
          d.ofiles, d.odirs⟩, ?_, ?_⟩
        · rw [heq]
          exact findEntry_replaceEntry_same
            (by simpa using findEntry_name hfeg) hfeg
        · rcases hd with hd | hd | hd
          · refine Or.inl ?_
            simp only [List.map_append]
            exact contains_append_left hd
          · exact Or.inr (Or.inl hd)
          · exact Or.inr (Or.inr hd)
      · rw [heq] at hfe
        have := hfe.symm.trans hfeg
        simp at this
      · rw [heq] at hfe
        have := hfe.symm.trans hfeg
        simp at this
    · have hname : rentName (RootEnt.rdir ⟨d0.rname,
          d0.links ++ [((parseRepoAndWorktree g.name).2, g.path)],
          d0.ofiles, d0.odirs⟩) = (parseRepoAndWorktree g.name).1 := by
        simpa using findEntry_name hfeg
      rcases h with ⟨d, hfe, hd⟩ | ⟨n, hfe⟩ | ⟨n, t, hfe⟩
      · exact Or.inl ⟨d,
          by rw [findEntry_replaceEntry_other hname heq]; exact hfe, hd⟩
      · exact Or.inr (Or.inl ⟨n,
          by rw [findEntry_replaceEntry_other hname heq]; exact hfe⟩)
      · exact Or.inr (Or.inr ⟨n, t,
          by rw [findEntry_replaceEntry_other hname heq]; exact hfe⟩)

theorem updateFold_preserves_AddNoop (snap : List (String × List String))
    (fl : List Folder) (st : ShadowWS × List SMEvent) (f : Folder)
    (h : AddNoop st.1 f) :
    AddNoop ((fl.foldl (updateFolderStep snap) st).1) f := by
  induction fl generalizing st with
  | nil => exact h
  | cons g fl ih =>
      rw [List.foldl_cons]
      exact ih (updateFolderStep snap st g)
        (updateFolderStep_preserves_AddNoop snap st g f h)

theorem updateFold_AddNoop (snap : List (String × List String))
    (fl : List Folder) (st : ShadowWS × List SMEvent)
    (hpre : ∀ f ∈ fl, (structureLookup snap
      (parseRepoAndWorktree f.name).1).contains
        (parseRepoAndWorktree f.name).2 = true → AddNoop st.1 f) :
    ∀ f ∈ fl, AddNoop ((fl.foldl (updateFolderStep snap) st).1) f := by
  induction fl generalizing st with
  | nil => intro f hf; cases hf
  | cons g fl ih =>
      intro f hf
      rw [List.foldl_cons]
      rcases List.mem_cons.mp hf with rfl | hf2
      · exact updateFold_preserves_AddNoop snap fl _ f
          (updateFolderStep_AddNoop_self snap st f
            (hpre f (List.mem_cons_self f fl)))
      · exact ih (updateFolderStep snap st g)
          (fun f2 hf2b hc => updateFolderStep_preserves_AddNoop snap st g f2
            (hpre f2 (List.mem_cons.mpr (Or.inr hf2b)) hc)) f hf2

theorem snapshotEntry_rdir_eq (d : RepoDir) :
    snapshotEntry (RootEnt.rdir d) =
      (if (d.rname.data.head? == some '.') = true then none
       else some (d.rname, d.links.map (fun l => l.1))) := rfl

theorem wsSnapshot_nondot (ws : ShadowWS) :
    ∀ kv ∈ wsSnapshot ws,
      ((kv : String × List String).1.data.head? == some '.') = false := by
  intro kv hkv
  obtain ⟨e, _, hres⟩ := List.mem_filterMap.mp hkv
  cases e with
  | rfile n => cases hres
  | rlink n t => cases hres
  | rdir d =>
      rw [snapshotEntry_rdir_eq] at hres
      by_cases hdot : (d.rname.data.head? == some '.') = true
      · rw [if_pos hdot] at hres
        cases hres
      · rw [if_neg hdot] at hres
        obtain rfl : kv = (d.rname, d.links.map (fun l => l.1)) := by
          cases hres
          rfl
        simpa using hdot

theorem structureLookup_find (s : List (String × List String)) (r : String)
    (h : structureLookup s r ≠ []) :
    ∃ kv ∈ s, (kv : String × List String).1 = r := by
  unfold structureLookup at h
  cases hf : s.find? (fun e => e.1 == r) with
  | none => rw [hf] at h; simp at h
  | some kv =>
      refine ⟨kv, List.mem_of_find?_eq_some hf, ?_⟩
      have := List.find?_some hf
      simpa using this

theorem snapshot_vs_findEntry (ws : ShadowWS) (r wt : String)
    (h : (structureLookup (wsSnapshot ws) r).contains wt = true) :
    (∃ n, findEntry ws r = some (RootEnt.rfile n)) ∨
    (∃ n t, findEntry ws r = some (RootEnt.rlink n t)) ∨
    (∃ d : RepoDir, findEntry ws r = some (RootEnt.rdir d) ∧
      (d.rname.data.head? == some '.') = false ∧
      (d.links.map (fun l => l.1)).contains wt = true) := by
  induction ws with
  | nil => simp [wsSnapshot, structureLookup, List.find?] at h
  | cons e ws' ih =>
      cases e with
      | rfile n =>
          have h2 : (structureLookup (wsSnapshot ws') r).contains wt = true := h
          cases hx : (n == r) with
          | true =>
              exact Or.inl ⟨n, by unfold findEntry; simp [List.find?, rentName, hx]⟩
          | false =>
              have hstep : findEntry (RootEnt.rfile n :: ws') r =
                  findEntry ws' r := by
                unfold findEntry
                simp [List.find?, rentName, hx]
              rw [hstep]
              exact ih h2
      | rlink n t =>
          have h2 : (structureLookup (wsSnapshot ws') r).contains wt = true := h
          cases hx : (n == r) with
          | true =>
              exact Or.inr (Or.inl ⟨n, t,
                by unfold findEntry; simp [List.find?, rentName, hx]⟩)
          | false =>
              have hstep : findEntry (RootEnt.rlink n t :: ws') r =
                  findEntry ws' r := by
                unfold findEntry
                simp [List.find?, rentName, hx]
              rw [hstep]
              exact ih h2
      | rdir d =>
          by_cases hdot : (d.rname.data.head? == some '.') = true
          · have hsnap : wsSnapshot (RootEnt.rdir d :: ws') = wsSnapshot ws' := by
              unfold wsSnapshot
              rw [List.filterMap_cons, snapshotEntry_rdir_eq, if_pos hdot]
            rw [hsnap] at h
            cases hx : (d.rname == r) with
            | false =>
                have hstep : findEntry (RootEnt.rdir d :: ws') r =
                    findEntry ws' r := by
                  unfold findEntry
                  simp [List.find?, rentName, hx]
                rw [hstep]
                exact ih h
            | true =>
                have hne2 : structureLookup (wsSnapshot ws') r ≠ [] := by
                  intro h0
                  rw [h0] at h
                  simp at h
                obtain ⟨kv, hkv, hkv1⟩ := structureLookup_find _ _ hne2
                have hnd := wsSnapshot_nondot ws' kv hkv
                rw [hkv1] at hnd
                have hdr : d.rname = r := by simpa using hx
                rw [hdr] at hdot
                rw [hnd] at hdot
                cases hdot
          · have hsnap : wsSnapshot (RootEnt.rdir d :: ws') =
                (d.rname, d.links.map (fun l => l.1)) :: wsSnapshot ws' := by
              unfold wsSnapshot
              rw [List.filterMap_cons, snapshotEntry_rdir_eq, if_neg hdot]
            rw [hsnap] at h
            cases hx : (d.rname == r) with
            | true =>
                have hlook : structureLookup
                    ((d.rname, d.links.map (fun l => l.1)) :: wsSnapshot ws') r =
                    d.links.map (fun l => l.1) := by
                  unfold structureLookup
                  simp [List.find?, hx]
                rw [hlook] at h
                refine Or.inr (Or.inr ⟨d, ?_, by simpa using hdot, h⟩)
                unfold findEntry
                simp [List.find?, rentName, hx]
            | false =>
                have hlook : structureLookup
                    ((d.rname, d.links.map (fun l => l.1)) :: wsSnapshot ws') r =
                    structureLookup (wsSnapshot ws') r := by
                  unfold structureLookup
                  simp [List.find?, hx]
                rw [hlook] at h
                have hstep : findEntry (RootEnt.rdir d :: ws') r =
                    findEntry ws' r := by
                  unfold findEntry
                  simp [List.find?, rentName, hx]
                rw [hstep]
                exact ih h

theorem findEntry_removalPhase (newStr : List (String × List String))
    (ws : ShadowWS) (r : String) (hne : structureLookup newStr r ≠ []) :
    findEntry (removalPhase newStr ws) r =
      (findEntry ws r).map (fun e => match e with
        | RootEnt.rdir d =>
            if (d.rname.data.head? == some '.') = true then RootEnt.rdir d
            else RootEnt.rdir ⟨d.rname, d.links.filter (fun l =>
              (structureLookup newStr d.rname).contains l.1),
              d.ofiles, d.odirs⟩
        | e => e) := by
  induction ws with
  | nil => rfl
  | cons e ws' ih =>
      unfold removalPhase at ih ⊢
      rw [List.filterMap_cons]
      cases e with
      | rfile n =>
          cases hx : (n == r) with
          | true =>
              unfold findEntry
              simp [removalEntry, List.find?, rentName, hx]
          | false =>
              have hstep1 : removalEntry newStr (RootEnt.rfile n) =
                  some (RootEnt.rfile n) := rfl
              rw [hstep1]
              unfold findEntry at ih ⊢
              simp only [List.find?, rentName, hx]
              exact ih
      | rlink n t =>
          cases hx : (n == r) with
          | true =>
              unfold findEntry
              simp [removalEntry, List.find?, rentName, hx]
          | false =>
              have hstep1 : removalEntry newStr (RootEnt.rlink n t) =
                  some (RootEnt.rlink n t) := rfl
              rw [hstep1]
              unfold findEntry at ih ⊢
              simp only [List.find?, rentName, hx]
              exact ih
      | rdir d =>
          rw [removalEntry_rdir_eq]
          by_cases hdot : (d.rname.data.head? == some '.') = true
          · rw [if_pos hdot]
            cases hx : (d.rname == r) with
            | true =>
                unfold findEntry
                simp only [List.find?, rentName, hx, Option.map_some']
                show some (RootEnt.rdir d) =
                  some (if (d.rname.data.head? == some '.') = true then
                    RootEnt.rdir d
                  else RootEnt.rdir ⟨d.rname, d.links.filter (fun l =>
                    (structureLookup newStr d.rname).contains l.1),
                    d.ofiles, d.odirs⟩)
                rw [if_pos hdot]
            | false =>
                unfold findEntry at ih ⊢
                simp only [List.find?, rentName, hx]
                exact ih
          · rw [if_neg hdot]
            by_cases hcond : ((structureLookup newStr d.rname).isEmpty
                && (d.links.filter (fun l =>
                  (structureLookup newStr d.rname).contains l.1)).isEmpty
                && d.ofiles.isEmpty && d.odirs.isEmpty) = true
            · rw [if_pos hcond]
              cases hx : (d.rname == r) with
              | true =>
                  have hdr : d.rname = r := by simpa using hx
                  have hz : structureLookup newStr d.rname = [] := by
                    have := hcond
                    simp only [Bool.and_eq_true, List.isEmpty_iff] at this
                    exact this.1.1.1
                  rw [hdr] at hz
                  exact absurd hz hne
              | false =>
                  unfold findEntry at ih ⊢
                  simp only [List.find?, rentName, hx]
                  exact ih
            · rw [if_neg hcond]
              cases hx : (d.rname == r) with
              | true =>
                  unfold findEntry
                  simp only [List.find?, rentName, hx, Option.map_some']
                  show some (RootEnt.rdir ⟨d.rname, d.links.filter (fun l =>
                      (structureLookup newStr d.rname).contains l.1),
                      d.ofiles, d.odirs⟩) =
                    some (if (d.rname.data.head? == some '.') = true then
                      RootEnt.rdir d
                    else RootEnt.rdir ⟨d.rname, d.links.filter (fun l =>
                      (structureLookup newStr d.rname).contains l.1),
                      d.ofiles, d.odirs⟩)
                  rw [if_neg hdot]
              | false =>
                  unfold findEntry at ih ⊢
                  simp only [List.find?, rentName, hx]
                  exact ih

theorem skip_implies_AddNoop_rem (ws : ShadowWS) (folders : List Folder)
    (f : Folder) (hf : f ∈ folders)
    (hskip : (structureLookup (wsSnapshot ws)
      (parseRepoAndWorktree f.name).1).contains
        (parseRepoAndWorktree f.name).2 = true) :
    AddNoop (removalPhase (newRepoStructure folders) ws) f := by
  have hwt := newRepoStructure_mem folders f hf
  have hne : structureLookup (newRepoStructure folders)
      (parseRepoAndWorktree f.name).1 ≠ [] := by
    intro h0
    rw [h0] at hwt
    simp at hwt
  rcases snapshot_vs_findEntry ws _ _ hskip with
    ⟨n, hfe⟩ | ⟨n, t, hfe⟩ | ⟨d, hfe, hdot, hcont⟩
  · refine Or.inr (Or.inl ⟨n, ?_⟩)
    rw [findEntry_removalPhase _ _ _ hne, hfe]
    rfl
  · refine Or.inr (Or.inr ⟨n, t, ?_⟩)
    rw [findEntry_removalPhase _ _ _ hne, hfe]
    rfl
  · have hdr : d.rname = (parseRepoAndWorktree f.name).1 := by
      simpa using findEntry_name hfe
    refine Or.inl ⟨⟨d.rname, d.links.filter (fun l =>
      (structureLookup (newRepoStructure folders) d.rname).contains l.1),
      d.ofiles, d.odirs⟩, ?_, Or.inl ?_⟩
    · rw [findEntry_removalPhase _ _ _ hne, hfe, Option.map_some']
      show some (if (d.rname.data.head? == some '.') = true then
          RootEnt.rdir d
        else RootEnt.rdir ⟨d.rname, d.links.filter (fun l =>
          (structureLookup (newRepoStructure folders) d.rname).contains l.1),
          d.ofiles, d.odirs⟩) = _
      rw [if_neg (by simp [hdot])]
    · have hmm : (parseRepoAndWorktree f.name).2 ∈
          d.links.map (fun l => l.1) := by simpa using hcont
      obtain ⟨l, hl, hleq⟩ := List.mem_map.mp hmm
      have hlf : l ∈ d.links.filter (fun l =>
          (structureLookup (newRepoStructure folders) d.rname).contains l.1) := by
        rw [List.mem_filter]
        refine ⟨hl, ?_⟩
        rw [hleq, hdr]
        exact hwt
      have hm2 : (parseRepoAndWorktree f.name).2 ∈
          (d.links.filter (fun l =>
            (structureLookup (newRepoStructure folders) d.rname).contains l.1)).map
              (fun l => l.1) := List.mem_map.mpr ⟨l, hlf, hleq⟩
      simpa using hm2

theorem aiStep_tail_no_rdir (se : FPath → Bool) (st : ShadowWS × List SMEvent)
    (item : FPath) :
    ∃ tail, (aiStep se st item).1 = st.1 ++ tail ∧
      ∀ e ∈ tail, ∀ d : RepoDir, e ≠ RootEnt.rdir d := by
  by_cases hse : se item = true
  · by_cases hc : ((st.1.map rentName).contains (item.getLastD "")) = true
    · exact ⟨[], by unfold aiStep; rw [if_pos hse, if_pos hc]; simp, by simp⟩
    · refine ⟨[.rlink (item.getLastD "") item],
        by unfold aiStep; rw [if_pos hse, if_neg hc], ?_⟩
      intro e he d
      rcases List.mem_singleton.mp he with rfl
      simp
  · exact ⟨[], by unfold aiStep; rw [if_neg hse]; simp, by simp⟩

theorem aiFold_tail_no_rdir (se : FPath → Bool) (items : List FPath)
    (st : ShadowWS × List SMEvent) :
    ∃ tail, (items.foldl (aiStep se) st).1 = st.1 ++ tail ∧
      ∀ e ∈ tail, ∀ d : RepoDir, e ≠ RootEnt.rdir d := by
  induction items generalizing st with
  | nil => exact ⟨[], by simp, by simp⟩
  | cons x xs ih =>
      obtain ⟨t1, h1, hn1⟩ := aiStep_tail_no_rdir se st x
      obtain ⟨t2, h2, hn2⟩ := ih (aiStep se st x)
      refine ⟨t1 ++ t2, ?_, ?_⟩
      · rw [List.foldl_cons, h2, h1, List.append_assoc]
      · intro e he d
        rcases List.mem_append.mp he with he | he
        · exact hn1 e he d
        · exact hn2 e he d

theorem LinksReq_append_no_rdir (newStr : List (String × List String))
    (ws tail : ShadowWS) (h : LinksReq newStr ws)
    (ht : ∀ e ∈ tail, ∀ d : RepoDir, e ≠ RootEnt.rdir d) :
    LinksReq newStr (ws ++ tail) := by
  intro d hd hdot l hl
  rcases List.mem_append.mp hd with hd | hd
  · exact h d hd hdot l hl
  · exact absurd rfl (ht _ hd d)

theorem DirsReq_append_no_rdir (newStr : List (String × List String))
    (ws tail : ShadowWS) (h : DirsReq newStr ws)
    (ht : ∀ e ∈ tail, ∀ d : RepoDir, e ≠ RootEnt.rdir d) :
    DirsReq newStr (ws ++ tail) := by
  intro d hd hdot hlk
  rcases List.mem_append.mp hd with hd | hd
  · exact h d hd hdot hlk
  · exact absurd rfl (ht _ hd d)

theorem aiFold_establishes_contains (se : FPath → Bool) (items : List FPath)
    (st : ShadowWS × List SMEvent) (item : FPath) (hmem : item ∈ items)
    (hse : se item = true) :
    (((items.foldl (aiStep se) st).1.map rentName).contains
      (item.getLastD "")) = true := by
  induction items generalizing st with
  | nil => cases hmem
  | cons x xs ih =>
      rw [List.foldl_cons]
      rcases List.mem_cons.mp hmem with rfl | htail
      · have hstep : (((aiStep se st item).1.map rentName).contains
            (item.getLastD "")) = true := by
          by_cases hc : ((st.1.map rentName).contains (item.getLastD "")) = true
          · obtain ⟨t1, h1⟩ := aiStep_ws_shape se st item
            rw [h1]
            exact contains_mono_append _ _ _ hc
          · have h1 : (aiStep se st item).1 =
                st.1 ++ [.rlink (item.getLastD "") item] := by
              unfold aiStep
              rw [if_pos hse, if_neg hc]
            rw [h1]
            have hm : (item.getLastD "") ∈
                (st.1 ++ [RootEnt.rlink (item.getLastD "") item]).map
                  rentName := by
              simp [rentName]
            simpa using hm
        obtain ⟨t2, h2⟩ := aiFold_ws_shape se xs (aiStep se st item)
        rw [h2]
        exact contains_mono_append _ _ _ hstep
      · exact ih (aiStep se st x) htail

theorem updateExisting_Synced (se : FPath → Bool) (ws : ShadowWS)
    (folders : List Folder) (ai : Option AlwaysIncludeConfig) :
    LinksReq (newRepoStructure folders)
        (updateExistingShadowWorkspace se ws folders ai).1 ∧
    DirsReq (newRepoStructure folders)
        (updateExistingShadowWorkspace se ws folders ai).1 ∧
    (∀ f ∈ folders,
      AddNoop (updateExistingShadowWorkspace se ws folders ai).1 f) ∧
    AiDone se ai (updateExistingShadowWorkspace se ws folders ai).1 := by
  have hwts : ∀ f ∈ folders, (structureLookup (newRepoStructure folders)
      (parseRepoAndWorktree f.name).1).contains
        (parseRepoAndWorktree f.name).2 = true :=
    fun f hf => newRepoStructure_mem folders f hf
  have hAB := updateFold_AB (newRepoStructure folders) (wsSnapshot ws) folders
    hwts (removalPhase (newRepoStructure folders) ws, [])
    (removalPhase_LinksReq _ ws) (removalPhase_DirsReq _ ws)
  have hC := updateFold_AddNoop (wsSnapshot ws) folders
    (removalPhase (newRepoStructure folders) ws, [])
    (fun f hf hsk => skip_implies_AddNoop_rem ws folders f hf hsk)
  cases ai with
  | none =>
      refine ⟨hAB.1, hAB.2, hC, ?_⟩
      intro item hmem
      exact absurd hmem (by simp)
  | some cfg =>
      obtain ⟨tail, htail, hnr⟩ := aiFold_tail_no_rdir se
        (cfg.folders ++ cfg.files)
        ((folders.foldl (updateFolderStep (wsSnapshot ws))
          (removalPhase (newRepoStructure folders) ws, [])).1, [])
      have hres : (updateExistingShadowWorkspace se ws folders (some cfg)).1 =
          (folders.foldl (updateFolderStep (wsSnapshot ws))
            (removalPhase (newRepoStructure folders) ws, [])).1 ++ tail :=
        htail
      rw [hres]
      refine ⟨LinksReq_append_no_rdir _ _ _ hAB.1 hnr,
        DirsReq_append_no_rdir _ _ _ hAB.2 hnr,
        fun f hf => addNoop_of_append _ _ f (hC f hf), ?_⟩
      intro item hmem hse
      have hcf := aiFold_establishes_contains se (cfg.folders ++ cfg.files)
        ((folders.foldl (updateFolderStep (wsSnapshot ws))
          (removalPhase (newRepoStructure folders) ws, [])).1, [])
        item hmem hse
      rw [htail] at hcf
      exact hcf

theorem lookupTicket_setTicket (fs : ShadowFS) (t : String) (ws : ShadowWS) :
    lookupTicket (setTicket fs t ws) t = some ws := by
  induction fs with
  | nil => simp [setTicket, lookupTicket, List.find?]
  | cons kv rest ih =>
      obtain ⟨k, w⟩ := kv
      by_cases hk : (k == t) = true
      · rw [setTicket, if_pos hk]
        simp [lookupTicket, List.find?]
      · rw [setTicket, if_neg hk]
        unfold lookupTicket at ih ⊢
        simp only [List.find?, hk]
        exact ih

theorem setTicket_setTicket (fs : ShadowFS) (t : String) (a b : ShadowWS) :
    setTicket (setTicket fs t a) t b = setTicket fs t b := by
  induction fs with
  | nil => simp [setTicket]
  | cons kv rest ih =>
      obtain ⟨k, w⟩ := kv
      by_cases hk : (k == t) = true
      · rw [setTicket, if_pos hk, setTicket, if_pos (by simp),
          setTicket, if_pos hk]
      · rw [setTicket, if_neg hk, setTicket, if_neg hk,
          setTicket, if_neg hk, ih]

/-- Claim C4: on an existing shadow workspace, running update twice with the
same folder set and always-include configuration leaves the same final
on-disk shadow state (entries, symlinks and files at the shadow location) as
running it once. -/
theorem C4_update_idempotent :
    ∀ (se : FPath → Bool) (fs : ShadowFS) (t : String) (folders : List Folder)
      (ai : Option AlwaysIncludeConfig) (ws : ShadowWS),
      lookupTicket fs t = some ws →
      (updateShadowWorkspace se (updateShadowWorkspace se fs t folders ai).1
          t folders ai).1 =
        (updateShadowWorkspace se fs t folders ai).1 := by
  intro se fs t folders ai ws h
  have h1 : updateShadowWorkspace se fs t folders ai =
      (setTicket fs t (updateExistingShadowWorkspace se ws folders ai).1,
       (updateExistingShadowWorkspace se ws folders ai).2) := by
    unfold updateShadowWorkspace
    rw [h]
  rw [h1]
  show (updateShadowWorkspace se
      (setTicket fs t (updateExistingShadowWorkspace se ws folders ai).1)
      t folders ai).1 =
    setTicket fs t (updateExistingShadowWorkspace se ws folders ai).1
  have h2 := lookupTicket_setTicket fs t
    (updateExistingShadowWorkspace se ws folders ai).1
  have h3 : updateShadowWorkspace se
      (setTicket fs t (updateExistingShadowWorkspace se ws folders ai).1)
      t folders ai =
      (setTicket (setTicket fs t
          (updateExistingShadowWorkspace se ws folders ai).1) t
        (updateExistingShadowWorkspace se
          (updateExistingShadowWorkspace se ws folders ai).1 folders ai).1,
       (updateExistingShadowWorkspace se
          (updateExistingShadowWorkspace se ws folders ai).1 folders ai).2) := by
    unfold updateShadowWorkspace
    rw [h2]
  rw [h3]
  show setTicket (setTicket fs t
      (updateExistingShadowWorkspace se ws folders ai).1) t
    (updateExistingShadowWorkspace se
      (updateExistingShadowWorkspace se ws folders ai).1 folders ai).1 =
    setTicket fs t (updateExistingShadowWorkspace se ws folders ai).1
  rw [setTicket_setTicket]
  have hs := updateExisting_Synced se ws folders ai
  rw [updateExisting_noop se
    (updateExistingShadowWorkspace se ws folders ai).1 folders ai
    hs.1 hs.2.1 hs.2.2.1 hs.2.2.2]

/-- Witness for C4 at a concrete one-folder update. -/
theorem C4_update_idempotent_witness :
    (updateShadowWorkspace (fun _ => false)
        (updateShadowWorkspace (fun _ => false) [("T", [])] "T"
          [⟨"app: main", ["wt", "main"]⟩] none).1 "T"
        [⟨"app: main", ["wt", "main"]⟩] none).1 =
      (updateShadowWorkspace (fun _ => false) [("T", [])] "T"
        [⟨"app: main", ["wt", "main"]⟩] none).1 :=
  C4_update_idempotent (fun _ => false) [("T", [])] "T"
    [⟨"app: main", ["wt", "main"]⟩] none [] rfl

end Scripts
